import Mathlib

/-!
Verification development for the module-specifier resolver in
`packages/vite/src/node/plugins/resolve.ts`.

Strings from the source are modelled as `List Char` (written via `"...".data`)
so that every operation is an executable, provable list function.  The
filesystem, the `package.json` loader, the dependency optimizer and the
external `resolve.exports` / `node:path` libraries are modelled explicitly; a
few helpers that live in files of the repository outside the provided source
(`../utils`, `../constants`, `../packages`) are modelled from the spec and
marked as such in their doc comments.
-/

namespace ViteResolve

/-- Strings of the modelled program: lists of characters. -/
abbrev Str := List Char

/-- Sentinel `browserExternalId = '__vite-browser-external'` (resolve.ts line 43). -/
def browserExternalStr : Str := "__vite-browser-external".data

/-- Modelled from the spec: the reserved `/@fs/` prefix (`FS_PREFIX` from `../constants`). -/
def fsPrefixStr : Str := "/@fs/".data

/-- First index of character `c` in `l` (JS `String.prototype.indexOf`, `none` for `-1`). -/
def charIdx : Str → Char → Option Nat
  | [], _ => none
  | a :: l, c => if a = c then some 0 else (charIdx l c).map (· + 1)

/-- First index of `c` at or after position `start` (JS `indexOf(c, start)`). -/
def charIdxFrom (l : Str) (c : Char) (start : Nat) : Option Nat :=
  (charIdx (l.drop start) c).map (· + start)

/-- Last index of character `c` in `l` (JS `lastIndexOf`). -/
def lastIdxOf (l : Str) (c : Char) : Option Nat :=
  (charIdx l.reverse c).map (fun i => l.length - 1 - i)

/-- Model of `splitFileAndPost` (resolve.ts lines 356-369): look for the first
`?`; only when there is no `?` at all, look for the first `#`; split only when
the found index is strictly positive. -/
def splitFileAndPost (p : Str) : Str × Str :=
  let pi : Option Nat :=
    match charIdx p '?' with
    | some i => some i
    | none => charIdx p '#'
  match pi with
  | some i => if 0 < i then (p.take i, p.drop i) else (p, [])
  | none => (p, [])

/-- Character is neither `?` nor `#`. -/
def notQH (c : Char) : Bool := c ≠ '?' && c ≠ '#'

/-- Everything before the first `?` or `#` (model of `cleanUrl` from `../utils`,
modelled from the spec: strip query and hash). -/
def fileOf (s : Str) : Str := s.takeWhile notQH

/-- String contains no `?` and no `#`. -/
def cleanB (s : Str) : Bool := s.all notQH

/-- Postfix shape produced by `splitFileAndPost`: empty or starting with `?`/`#`. -/
def postOk (p : Str) : Prop := p = [] ∨ p.head? = some '?' ∨ p.head? = some '#'

/-- JS whitespace for `String.prototype.trim`. -/
def isWs (c : Char) : Bool := c = ' ' || c = '\t' || c = '\n' || c = '\r'

/-- JS `String.prototype.trim`. -/
def trimStr (s : Str) : Str :=
  ((s.dropWhile isWs).reverse.dropWhile isWs).reverse

/-- Regex `\w` character class. -/
def isWordChar (c : Char) : Bool :=
  ('a' ≤ c && c ≤ 'z') || ('A' ≤ c && c ≤ 'Z') || ('0' ≤ c && c ≤ '9') || c = '_'

/-- `p` is a prefix of `s` (JS `String.prototype.startsWith`). -/
def startsWith (s p : Str) : Bool := p.isPrefixOf s

/-- `p` is a suffix of `s` (JS `String.prototype.endsWith`). -/
def endsWith (s p : Str) : Bool := p.isSuffixOf s

/-- `p` occurs as a contiguous substring of `s`. -/
def containsSub : Str → Str → Bool
  | s, p =>
    p.isPrefixOf s ||
      match s with
      | [] => false
      | _ :: t => containsSub t p

/-- Model of node `path.posix.basename`: the part after the last `/`. -/
def pathBasename (p : Str) : Str :=
  match lastIdxOf p '/' with
  | some i => p.drop (i + 1)
  | none => p

/-- Model of node `path.posix.extname`: from the last `.` of the basename,
empty when the dot is absent or leads the basename. -/
def pathExtname (p : Str) : Str :=
  let b := pathBasename p
  match lastIdxOf b '.' with
  | some i => if 0 < i then b.drop i else []
  | none => []

/-- Model of node `path.posix.dirname` (trailing-slash corner cases elided:
paths handled by the resolver never end in `/`). -/
def pathDirname (p : Str) : Str :=
  match lastIdxOf p '/' with
  | some 0 => ['/']
  | some i => p.take i
  | none => ['.']

/-- String starts with `/` (posix `path.isAbsolute`). -/
def isAbsB (s : Str) : Bool := s.head? = some '/'

/-- Split a path on `/` into segments (`"/a/b" ↦ ["", "a", "b"]`). -/
def splitSlash : Str → List Str
  | [] => [[]]
  | c :: t =>
    if c = '/' then [] :: splitSlash t
    else (c :: (splitSlash t).headI) :: (splitSlash t).tail

/-- Join segments with `/`. -/
def joinSlash : List Str → Str
  | [] => []
  | [x] => x
  | x :: r => x ++ '/' :: joinSlash r

/-- Segment stack processing for absolute posix normalization: drop empty and
`.` segments, let `..` pop. -/
def normAbsGo (acc : List Str) : List Str → List Str
  | [] => acc.reverse
  | s :: r =>
    if s = [] || s = ['.'] then normAbsGo acc r
    else if s = ['.', '.'] then normAbsGo acc.tail r
    else normAbsGo (s :: acc) r

/-- Segment stack processing for relative posix normalization: leading `..`
segments are kept. -/
def normRelGo (acc : List Str) : List Str → List Str
  | [] => acc.reverse
  | s :: r =>
    if s = [] || s = ['.'] then normRelGo acc r
    else if s = ['.', '.'] then
      match acc with
      | t :: rest => if t = ['.', '.'] then normRelGo (s :: acc) r else normRelGo rest r
      | [] => normRelGo (s :: acc) r
    else normRelGo (s :: acc) r

/-- Model of node `path.posix.normalize` (and of `normalizePath` from
`../utils`, modelled from the spec: separators are already forward slashes on
posix).  Trailing-slash preservation is elided: the resolver never feeds it a
path ending in `/`. -/
def posixNormalize (p : Str) : Str :=
  if p = [] then ['.']
  else if isAbsB p then '/' :: joinSlash (normAbsGo [] (splitSlash p))
  else if normRelGo [] (splitSlash p) = [] then ['.']
  else joinSlash (normRelGo [] (splitSlash p))

/-- Model of node `path.posix.join` for the two-argument uses in the source. -/
def pathJoin (a b : Str) : Str :=
  if a = [] then posixNormalize b
  else if b = [] then posixNormalize a
  else posixNormalize (a ++ '/' :: b)

/-- Model of node `path.posix.resolve base id` for the uses in the source
(`base` is absolute there). -/
def pathResolve (base id : Str) : Str :=
  if isAbsB id then posixNormalize id else pathJoin base id

/-- Segment list of a path with empty and dot segments removed (helper for
`pathRelative`). -/
def cleanSegs (p : Str) : List Str := normAbsGo [] (splitSlash p)

/-- Drop the longest common prefix of two lists. -/
def dropCommon : List Str → List Str → List Str × List Str
  | a :: as, b :: bs => if a = b then dropCommon as bs else (a :: as, b :: bs)
  | as, bs => (as, bs)

/-- Model of node `path.posix.relative` for absolute arguments. -/
def pathRelative (fr dst : Str) : Str :=
  let (fs, ts) := dropCommon (cleanSegs fr) (cleanSegs dst)
  joinSlash (fs.map (fun _ => ['.', '.']) ++ ts)

/-- Modelled from the spec: `DEFAULT_EXTENSIONS` from `../constants`
(spec section 3). -/
def defaultExtensions : List Str :=
  [".mjs".data, ".js".data, ".mts".data, ".ts".data, ".jsx".data, ".tsx".data, ".json".data]

/-- Modelled from the spec: `DEFAULT_MAIN_FIELDS` from `../constants`
(spec section 3). -/
def defaultMainFields : List Str :=
  ["module".data, "jsnext:main".data, "jsnext".data]

/-- Does `pre` occur in `s` followed by optional whitespace and then `post`?
This models the regexes `/pre\s*post/` used by the UMD heuristic. -/
def reTestWs (s pre post : Str) : Bool :=
  match s with
  | [] => startsWith ((([] : Str).dropWhile isWs)) post && pre = []
  | _ :: t =>
    (startsWith s pre && startsWith ((s.drop pre.length).dropWhile isWs) post)
    || reTestWs t pre post

/-- UMD content sniff of `resolvePackageEntry` (resolve.ts lines 814-818):
`/typeof exports\s*==/ && /typeof module\s*==/` or `/module\.exports\s*=/`. -/
def umdHit (content : Str) : Bool :=
  (reTestWs content "typeof exports".data "==".data
     && reTestWs content "typeof module".data "==".data)
  || reTestWs content "module.exports".data "=".data

/-- Modelled from the spec: `isPossibleTsOutput` from `../utils` — extensions a
TypeScript compiler can emit (spec section 4.2). -/
def isPossibleTsOutput (f : Str) : Bool :=
  endsWith f ".js".data || endsWith f ".jsx".data || endsWith f ".mjs".data || endsWith f ".cjs".data

/-- Modelled from the spec: `getPotentialTsSrcPaths` from `../utils`
(`.js→.ts|.tsx`, `.jsx→.tsx`, `.mjs→.mts`, `.cjs→.cts`, spec section 4.2). -/
def getPotentialTsSrcPaths (f : Str) : List Str :=
  if endsWith f ".jsx".data then [f.take (f.length - 4) ++ ".tsx".data]
  else if endsWith f ".mjs".data then [f.take (f.length - 4) ++ ".mts".data]
  else if endsWith f ".cjs".data then [f.take (f.length - 4) ++ ".cts".data]
  else if endsWith f ".js".data then
    [f.take (f.length - 3) ++ ".ts".data, f.take (f.length - 3) ++ ".tsx".data]
  else []

/-- Modelled from the spec: `isTsRequest` from `../utils` — the url names a
TypeScript module (spec section 4.1 step 3). -/
def isTsRequest (url : Str) : Bool :=
  let c := fileOf url
  endsWith c ".ts".data || endsWith c ".tsx".data || endsWith c ".mts".data || endsWith c ".cts".data

/-- Loop body of the `possiblePkgIds` enumeration in `tryNodeResolve`
(resolve.ts lines 552-577); `start` plays the role of `prevSlashIndex + 1`. -/
def possiblePkgIdsGo (np : Str) : Nat → Nat → List Str → List Str
  | 0, _, acc => acc.reverse
  | f + 1, start, acc =>
    let slashIndex := match charIdxFrom np '/' start with
      | some i => i
      | none => np.length
    let part := (np.drop start).take (slashIndex - start)
    if part = [] then acc.reverse
    else
      let skip := if acc.isEmpty then part.head? = some '@' else ¬ pathExtname part = []
      if skip then possiblePkgIdsGo np f (slashIndex + 1) acc
      else possiblePkgIdsGo np f (slashIndex + 1) (np.take slashIndex :: acc)

/-- Candidate package ids of a bare specifier (resolve.ts lines 552-577). -/
def possiblePkgIds (np : Str) : List Str :=
  possiblePkgIdsGo np (np.length + 2) 0 []

/-- Modelled from the spec: `bareImportRE = /^[\w@](?!.*:\/\/)/` from
`../utils` — first character is a word character or `@`, and no `://` occurs
after position 0. -/
def bareImportTest (id : Str) : Bool :=
  match id with
  | [] => false
  | c :: t => (isWordChar c || c = '@') && ¬ containsSub t "://".data

/-- Modelled from the spec: `isExternalUrl = /^(https?:)?\/\//` from `../utils`. -/
def isExternalUrl (id : Str) : Bool :=
  startsWith id "http://".data || startsWith id "https://".data || startsWith id "//".data

/-- Modelled from the spec: `isDataUrl = /^data:/` from `../utils`. -/
def isDataUrl (id : Str) : Bool := startsWith id "data:".data

/-- Run of characters allowed in a `v=<hash>` value (`[\w.-]`). -/
def isHashChar (c : Char) : Bool := isWordChar c || c = '.' || c = '-'

/-- Modelled from the spec: `DEP_VERSION_RE = /[?&](v=[\w.-]+)(?:&|$)/` from
`../constants` — the url already carries a `v=<hash>` query. -/
def hasVersionQuery : Str → Bool
  | [] => false
  | c :: t =>
    ((c = '?' || c = '&') && startsWith t "v=".data
       && ¬ (t.drop 2).takeWhile isHashChar = []
       && (match (t.drop 2).dropWhile isHashChar with
           | [] => true
           | d :: _ => d = '&'))
    || hasVersionQuery t

/-- Modelled from the spec: `SPECIAL_QUERY_RE = /[?&](?:worker|sharedworker|raw|url)\b/`
from `../constants`. -/
def specialQueryTest : Str → Bool
  | [] => false
  | c :: t =>
    ((c = '?' || c = '&')
       && (startsWith t "worker".data || startsWith t "sharedworker".data
             || startsWith t "raw".data || startsWith t "url".data))
    || specialQueryTest t

/-- Modelled from the spec: `OPTIMIZABLE_ENTRY_RE` from `../constants` — known
js types eligible for pre-bundling. -/
def optimizableEntry (s : Str) : Bool :=
  endsWith s ".js".data || endsWith s ".mjs".data || endsWith s ".cjs".data || endsWith s ".ts".data

/-- Existing query of a url, re-attached after an injected one (`?` becomes
`&`). -/
def injectQueryRest : Str → Str
  | '?' :: t => '&' :: t
  | r => r

/-- Modelled from the spec: `injectQuery` from `../utils` — insert a query
string right after the file part of the url, before any existing query. -/
def injectQuery (url q : Str) : Str :=
  fileOf url ++ ('?' :: q ++ injectQueryRest (url.drop (fileOf url).length))

/-- Pattern `/(.js|.mjs|.cjs)$/` of `tryNodeResolve` (resolve.ts line 644).
The dots are unescaped, so the union is exactly: the string ends in `js`
preceded by at least one character. -/
def matchJsDotRegex (s : Str) : Bool :=
  endsWith s "js".data && 3 ≤ s.length

/-- Modelled from the spec: `fsPathFromId` from `../utils` — strip the `/@fs/`
prefix and keep a leading slash (spec section 4.1 step 5). -/
def fsPathFromId (id : Str) : Str :=
  let p := id.drop fsPrefixStr.length
  if isAbsB p then p else '/' :: p

/-- JSON-like manifest values (parsed `package.json` contents). `jobj` models a
plain object (JS `isObject`, which excludes arrays), `jarr` an array. -/
inductive JVal where
  | jstr : Str → JVal
  | jbool : Bool → JVal
  | jobj : List (Str × JVal) → JVal
  | jarr : List JVal → JVal
  | jother : JVal

/-- Parsed `package.json` data: ordered field list. -/
abbrev Manifest := List (Str × JVal)

/-- Ordered association-list lookup (first match wins, as JS object iteration). -/
def alookup {β : Type} : List (Str × β) → Str → Option β
  | [], _ => none
  | (k, v) :: r, q => if k = q then some v else alookup r q

/-- JS truthiness of an optional manifest field (`undefined`, `false` and `""`
are falsy). -/
def jTruthy : Option JVal → Bool
  | none => false
  | some (.jstr s) => ¬ s.isEmpty
  | some (.jbool b) => b
  | some (.jobj _) => true
  | some (.jarr _) => true
  | some .jother => true

/-- JS truthiness of an optional string (`undefined` and `""` are falsy). -/
def truthyS : Option Str → Bool
  | some s => ¬ s.isEmpty
  | none => false

/-- JS truthiness of an optional boolean. -/
def truthyOB (o : Option Bool) : Bool := o.getD false

/-- Field of the manifest when it is a string (`typeof data[k] === 'string'`). -/
def strField (data : Manifest) (k : Str) : Option Str :=
  match alookup data k with
  | some (.jstr s) => some s
  | _ => none

/-- Membership of a string in a string list. -/
def memStr (x : Str) : List Str → Bool
  | [] => false
  | y :: r => if x = y then true else memStr x r

/-- Helper of `mapWithBrowserField` (resolve.ts lines 1035-1037):
`key.endsWith(suffix) && key.slice(0, -suffix.length) === path`. -/
def equalWithoutSuffix (path key sfx : Str) : Bool :=
  endsWith key sfx && decide (key.take (key.length - sfx.length) = path)

/-- Iteration of `mapWithBrowserField` over the keys of the `browser` object. -/
def mwbfGo (np : Str) : List (Str × JVal) → Option JVal
  | [] => none
  | (k, v) :: rest =>
    let nk := posixNormalize k
    if decide (np = nk) || equalWithoutSuffix np nk ".js".data
        || equalWithoutSuffix np nk "/index.js".data then some v
    else mwbfGo np rest

/-- Model of `mapWithBrowserField` (resolve.ts lines 1017-1033). -/
def mapWithBrowserField (relativePathInPkgDir : Str) (m : List (Str × JVal)) : Option JVal :=
  mwbfGo (posixNormalize relativePathInPkgDir) m

/-- Modelled from the spec: one pre-bundled dependency record of the optimizer
metadata (spec section 6). -/
structure DepInfo where
  id : Str
  src : Option Str := none
  browserHash : Option Str := none

/-- Modelled from the spec: optimizer metadata view `{browserHash, depInfoList}`
plus the `optimizedDepInfoFromId`/`optimizedDepInfoFromFile` lookups of
`../optimizer` (spec section 6). -/
structure DepMetadata where
  browserHash : Option Str := none
  depInfoList : List DepInfo := []
  byId : Str → Option DepInfo := fun _ => none
  byFile : Str → Option DepInfo := fun _ => none

/-- Modelled from the spec: the dependency-optimizer interface the resolver
consumes (spec section 6). -/
structure Optimizer where
  isOptimizedDepUrl : Str → Bool := fun _ => false
  isOptimizedDepFile : Str → Bool := fun _ => false
  metadata : Bool → Option DepMetadata := fun _ => none
  exclude : Option (List Str) := none
  registerMissingImport : Str → Str → Bool → DepInfo := fun i _ _ => { id := i }
  getOptimizedDepId : DepInfo → Str := fun d => d.id

/-- Model of `InternalResolveOptions` (resolve.ts lines 50-87) restricted to
the fields the source reads, with the ssr configuration destructured as in
`resolvePlugin` (`ssrNoExternalTrue` models `ssrConfig.noExternal === true`,
`ssrTargetWebworker` models `ssrConfig.target === 'webworker'`).  `tryPfx`
models `tryPrefix`. -/
structure Opts where
  root : Str
  isBuild : Bool := false
  isProduction : Bool := false
  ssrNoExternalTrue : Bool := false
  ssrTargetWebworker : Bool := false
  asSrc : Bool := false
  tryPfx : Option Str := none
  skipPackageJson : Bool := false
  preferRelative : Bool := false
  preserveSymlinks : Bool := false
  isRequire : Bool := false
  isFromTsImporter : Bool := false
  tryEsmOnly : Bool := false
  scan : Bool := false
  mainFields : Option (List Str) := none
  extensions : Option (List Str) := none
  conditions : Option (List Str) := none
  dedupe : Option (List Str) := none
  shouldExternalize : Option (Str → Option Bool) := none

/-- Model of the external world: the filesystem (files with contents,
directories, `realpathSync`), the manifest loader data (`dir ↦ parsed
package.json`, modelled from the spec for `../packages`), the external
`resolve.exports` library as an oracle, the node builtin list, and the
remaining collaborator functions of `../utils` and the optimizer. -/
structure Env where
  files : List (Str × Str) := []
  dirs : List Str := []
  realp : Str → Str := fun s => s
  pkgs : List (Str × Manifest) := []
  resolveExportsFn : Manifest → Str → Bool → Bool → List Str → Option Str :=
    fun _ _ _ _ _ => none
  builtins : List Str := []
  cwd : Str := "/".data
  moduleLang : Str → Option Str := fun _ => none
  resolveFromFn : Str → Str → Option Str := fun _ _ => none
  nestedResolveFromFn : Str → Str → Bool → Str := fun _ b _ => b
  hasSideEffectsFn : Str → Str → Bool := fun _ _ => true
  depsOptimizer : Option Optimizer := none

/-- Mutable resolver state: the per-package resolved caches
(`webResolvedImports`/`nodeResolvedImports`, keyed by package dir, subpath key
and `targetWeb`, modelled from the spec for `../packages`), and the
process-wide `idToPkgMap` (resolve.ts line 530). -/
structure St where
  resolvedCache : List ((Str × Str × Bool) × Str) := []
  idToPkg : List (Str × (Str × Manifest)) := []

/-- Lookup in the resolved cache (first entry wins; `setCache` prepends). -/
def clookup : List ((Str × Str × Bool) × Str) → (Str × Str × Bool) → Option Str
  | [], _ => none
  | (k, v) :: r, q => if k = q then some v else clookup r q

/-- Model of `getResolvedCache(key, targetWeb)`. -/
def getCache (st : St) (dir key : Str) (tw : Bool) : Option Str :=
  clookup st.resolvedCache (dir, key, tw)

/-- Model of `setResolvedCache(key, value, targetWeb)`. -/
def setCache (st : St) (dir key : Str) (tw : Bool) (v : Str) : St :=
  { st with resolvedCache := ((dir, key, tw), v) :: st.resolvedCache }

/-- Model of `idToPkgMap.set(id, pkg)`. -/
def setIdToPkg (st : St) (idv dir : Str) (data : Manifest) : St :=
  { st with idToPkg := (idv, (dir, data)) :: st.idToPkg }

/-- Errors thrown by the resolver carry the message and the state at the
moment of the throw (JS mutations survive an exception). -/
abbrev Er := Str × St

/-- Result type of the probing functions: an optional resolved string plus the
updated state, or a thrown error. -/
abbrev FsRes := Except Er (Option Str × St)

/-- Sentinel message for fuel exhaustion of the model (never reached for
adequate fuel). -/
def fuelErrStr : Str := "FUEL".data

/-- Sequence two attempts: keep errors and successes, otherwise run the second
attempt on the updated state (models consecutive `if ((res = try...))` blocks). -/
def orElseX {α : Type} : Except Er (Option α × St) → (St → Except Er (Option α × St)) →
    Except Er (Option α × St)
  | .error er, _ => .error er
  | .ok (some r, st), _ => .ok (some r, st)
  | .ok (none, st), k => k st

/-- Model of `isFileReadable` from `../utils` (modelled from the spec: a
non-throwing existence/readability check). -/
def isFileReadable (e : Env) (f : Str) : Bool :=
  (alookup e.files f).isSome || memStr f e.dirs

/-- The path names a directory in the modelled filesystem. -/
def isDirB (e : Env) (f : Str) : Bool := memStr f e.dirs

/-- Model of `fs.existsSync`. -/
def fsExists (e : Env) (f : Str) : Bool := isFileReadable e f

/-- Model of `getRealPath` (resolve.ts lines 1039-1045); `ensureVolumeInPath`
is the identity on posix. -/
def getRealPath (e : Env) (resolved : Str) (preserveSymlinks : Bool) : Str :=
  let r := if ¬ preserveSymlinks ∧ ¬ browserExternalStr = resolved then e.realp resolved
           else resolved
  posixNormalize r

/-- Model of the local `resolveExports` wrapper (resolve.ts lines 888-907):
build the condition list and call the external `resolve.exports` library. -/
def resolveExportsW (e : Env) (data : Manifest) (key : Str) (opts : Opts)
    (targetWeb : Bool) : Option Str :=
  let conditions :=
    (if opts.isProduction then ["production".data] else ["development".data])
      ++ (if opts.isRequire then [] else ["module".data])
      ++ opts.conditions.getD []
  e.resolveExportsFn data key targetWeb opts.isRequire conditions

/-- Error message of `packageEntryFailure` (resolve.ts lines 880-886). -/
def entryFailureMsg (id : Str) (details : Option Str) : Str :=
  "Failed to resolve entry for package \"".data ++ id
    ++ "\". The package may have incorrect main/module/exports specified in its package.json".data
    ++ (match details with
        | some d => ": ".data ++ d
        | none => ".".data)

/-- Error message of the subpath-not-exposed throw in `resolveDeepImport`
(resolve.ts lines 945-948).  The interpolated `relativeId` has already been
cleared at the throw site, so `none` renders as the JS string `undefined`. -/
def deepImportErrMsg (relativeId : Option Str) (dir : Str) : Str :=
  "Package subpath '".data
    ++ (match relativeId with
        | none => "undefined".data
        | some s => s)
    ++ "' is not defined by \"exports\" in ".data
    ++ pathJoin dir "package.json".data ++ ".".data

/-- Error message of the ssr builtin error (resolve.ts lines 306-313). -/
def builtinErrMsg (id : Str) (importer : Option Str) (cwd : Str) : Str :=
  "Cannot bundle Node.js built-in \"".data ++ id ++ "\"".data
    ++ (match importer with
        | some imp => " imported from \"".data ++ pathRelative cwd imp ++ "\"".data
        | none => [])
    ++ ". Consider disabling ssr.noExternal or remove the built-in dependency.".data

/-- Ancestor chain of a directory (the directory itself, its parent, and so on
up to the root). -/
def ancestorsGo : Nat → Str → List Str
  | 0, _ => []
  | f + 1, d => d :: (if d = ['/'] ∨ d = ['.'] then [] else ancestorsGo f (pathDirname d))

/-- Ancestor chain with enough fuel for the path length. -/
def ancestors (d : Str) : List Str := ancestorsGo (d.length + 1) d

/-- Modelled from the spec: `resolvePackageData` of `../packages` walks the
ancestor `node_modules` directories of `basedir` for a match and returns the
cached package handle (spec section 4.3). -/
def resolvePackageData (e : Env) (pid basedir : Str) : Option (Str × Manifest) :=
  (ancestors basedir).findSome? fun a =>
    let dir := a ++ "/node_modules/".data ++ pid
    (alookup e.pkgs dir).map (fun m => (dir, m))

/-- First candidate package id for which the manifest resolver finds a package
(`possiblePkgIds.reverse().find(...)` in resolve.ts lines 598-601). -/
def findPkg (e : Env) : List Str → Str → Option (Str × Str × Manifest)
  | [], _ => none
  | pid :: rest, basedir =>
    match resolvePackageData e pid basedir with
    | some (dir, data) => some (pid, dir, data)
    | none => findPkg e rest basedir

/-- First `mainFields` entry whose manifest value is a string (resolve.ts
lines 830-835). -/
def firstStrFieldOf (data : Manifest) : List Str → Option Str
  | [] => none
  | f :: r =>
    match strField data f with
    | some v => some v
    | none => firstStrFieldOf data r

/-- Structured result record `{ id, external?, moduleSideEffects? }`. -/
structure RRecord where
  id : Str
  external : Bool := false
  sideEffects : Option Bool := none

/-- Resolution result of the orchestrator: a bare string, a structured record,
or the explicit `null`. -/
inductive RRes where
  | rstr : Str → RRes
  | rrec : RRecord → RRes
  | rnull : RRes

/-- Model of `processResult` in `tryNodeResolve` (resolve.ts lines 635-652). -/
def processResultTNR (externalize : Option Bool) (origId : Str)
    (isDeepImport hasExports : Bool) (rec0 : RRecord) : Option RRecord :=
  if ¬ truthyOB externalize then some rec0
  else
    let resolvedExt := pathExtname rec0.id
    if isDeepImport ∧ ¬ resolvedExt.isEmpty ∧ ¬ matchJsDotRegex rec0.id then none
    else
      let rid : Str :=
        if isDeepImport ∧ ¬ hasExports ∧ ¬ pathExtname origId = resolvedExt then
          origId ++ resolvedExt
        else origId
      some { rec0 with id := rid, external := true }

/-- Post-processing of `tryNodeResolve` after a successful resolution
(resolve.ts lines 635-711): `idToPkgMap` registration, externalization, the
optimizer hand-off and the version-query injection. -/
def tnrFinish (e : Env) (st : St) (id : Str) (importer : Option Str) (opts : Opts)
    (_targetWeb : Bool) (ssr0 : Bool) (externalize : Option Bool)
    (pkgId nestedPath : Str) (isDeepImport : Bool) (dir : Str) (data : Manifest)
    (resolved : Str) : Option RRecord × St :=
  let st1 := setIdToPkg st resolved dir data
  let hasExports := jTruthy (alookup data "exports".data)
  if (opts.isBuild ∧ e.depsOptimizer.isNone) ∨ truthyOB externalize then
    (processResultTNR externalize id isDeepImport hasExports
      { id := resolved, sideEffects := some (e.hasSideEffectsFn dir resolved) }, st1)
  else if ¬ containsSub resolved "node_modules".data ∨ e.depsOptimizer.isNone ∨ opts.scan then
    (some { id := resolved }, st1)
  else
    match e.depsOptimizer with
    | none => (some { id := resolved }, st1)
    | some opt =>
      let isJsType := optimizableEntry resolved
      let excluded : Bool :=
        ¬ isJsType
          || (match importer with
              | some imp => containsSub imp "node_modules".data
              | none => false)
          || (match opt.exclude with
              | some ex => memStr pkgId ex || memStr nestedPath ex
              | none => false)
          || specialQueryTest resolved
          || (¬ opts.isBuild && ssr0)
      let resolvedF : Str :=
        if excluded then
          if ¬ opts.isBuild then
            match opt.metadata ssr0 with
            | some md =>
              (match md.browserHash with
               | some h => if isJsType then injectQuery resolved ("v=".data ++ h) else resolved
               | none => resolved)
            | none => resolved
          else resolved
        else opt.getOptimizedDepId (opt.registerMissingImport id resolved ssr0)
      if opts.isBuild then
        (some { id := resolvedF, sideEffects := some (e.hasSideEffectsFn dir resolved) }, st1)
      else (some { id := resolvedF }, st1)

mutual

/-- Model of `tryResolveFile` (resolve.ts lines 472-528), first half: the
readable-file / directory-index part; falls through to `trfTail`. -/
def tryResolveFile (e : Env) : Nat → St → Str → Str → Opts → Bool → Bool →
    Option Str → Bool → FsRes
  | 0, st, _, _, _, _, _, _, _ => .error (fuelErrStr, st)
  | n + 1, st, file, post, opts, tryIndex, targetWeb, tryPfx, skipPkgJson =>
    if isFileReadable e file then
      if ¬ isDirB e file then
        .ok (some (getRealPath e file opts.preserveSymlinks ++ post), st)
      else if tryIndex then
        if skipPkgJson then
          match tryFsResolve e n st (file ++ "/index".data) opts true true with
          | .error er => .error er
          | .ok (some idx, st') => .ok (some (idx ++ post), st')
          | .ok (none, st') =>
            trfTail e n st' file post opts tryIndex targetWeb tryPfx skipPkgJson
        else
          match alookup e.pkgs file with
          | some data =>
            match resolvePackageEntry e n st file file data targetWeb opts with
            | .ok (r, st') => .ok (some r, st')
            | .error er => .error er
          | none =>
            match tryFsResolve e n st (file ++ "/index".data) opts true true with
            | .error er => .error er
            | .ok (some idx, st') => .ok (some (idx ++ post), st')
            | .ok (none, st') =>
              trfTail e n st' file post opts tryIndex targetWeb tryPfx skipPkgJson
      else trfTail e n st file post opts tryIndex targetWeb tryPfx skipPkgJson
    else trfTail e n st file post opts tryIndex targetWeb tryPfx skipPkgJson

/-- Model of `tryResolveFile`, second half (resolve.ts lines 506-527): the
TypeScript-extension fallback (which returns without trying the prefix), then
the `tryPrefix` retry. -/
def trfTail (e : Env) : Nat → St → Str → Str → Opts → Bool → Bool →
    Option Str → Bool → FsRes
  | 0, st, _, _, _, _, _, _, _ => .error (fuelErrStr, st)
  | n + 1, st, file, post, opts, tryIndex, targetWeb, tryPfx, skipPkgJson =>
    if opts.isFromTsImporter && isPossibleTsOutput file then
      tsLoop e n st (getPotentialTsSrcPaths file) post opts tryIndex targetWeb tryPfx skipPkgJson
    else
      match tryPfx with
      | some pre =>
        tryResolveFile e n st (pathDirname file ++ '/' :: (pre ++ pathBasename file))
          post opts tryIndex targetWeb none false
      | none => .ok (none, st)

/-- Loop over the TypeScript source candidates in `tryResolveFile`
(resolve.ts lines 508-521); the final `.ok (none, _)` is the bare `return`. -/
def tsLoop (e : Env) : Nat → St → List Str → Str → Opts → Bool → Bool →
    Option Str → Bool → FsRes
  | 0, st, _, _, _, _, _, _, _ => .error (fuelErrStr, st)
  | n + 1, st, cands, post, opts, tryIndex, targetWeb, tryPfx, skipPkgJson =>
    match cands with
    | [] => .ok (none, st)
    | src :: rest =>
      match tryResolveFile e n st src post opts tryIndex targetWeb tryPfx skipPkgJson with
      | .error er => .error er
      | .ok (some r, st') => .ok (some r, st')
      | .ok (none, st') =>
        tsLoop e n st' rest post opts tryIndex targetWeb tryPfx skipPkgJson

/-- Model of `tryFsResolve` (resolve.ts lines 371-470). -/
def tryFsResolve (e : Env) : Nat → St → Str → Opts → Bool → Bool → FsRes
  | 0, st, _, _, _, _ => .error (fuelErrStr, st)
  | n + 1, st, fsPath, opts, tryIndex, targetWeb =>
    let fp := splitFileAndPost fsPath
    orElseX
      (if fp.2.isEmpty then .ok (none, st)
       else tryResolveFile e n st fsPath [] opts false targetWeb opts.tryPfx opts.skipPackageJson)
      fun st1 =>
    orElseX
      (tryResolveFile e n st1 fp.1 fp.2 opts false targetWeb opts.tryPfx opts.skipPackageJson)
      fun st2 =>
    orElseX
      (extLoop e n st2 (opts.extensions.getD defaultExtensions) fsPath fp.1 fp.2 opts targetWeb)
      fun st3 =>
    orElseX
      (if fp.2.isEmpty then .ok (none, st3)
       else tryResolveFile e n st3 fsPath [] opts tryIndex targetWeb opts.tryPfx opts.skipPackageJson)
      fun st4 =>
    tryResolveFile e n st4 fp.1 fp.2 opts tryIndex targetWeb opts.tryPfx opts.skipPackageJson

/-- Extension loop of `tryFsResolve` (resolve.ts lines 411-440). -/
def extLoop (e : Env) : Nat → St → List Str → Str → Str → Str → Opts → Bool → FsRes
  | 0, st, _, _, _, _, _, _ => .error (fuelErrStr, st)
  | n + 1, st, exts, fsPath, file, post, opts, targetWeb =>
    match exts with
    | [] => .ok (none, st)
    | ext :: rest =>
      orElseX
        (if post.isEmpty then .ok (none, st)
         else tryResolveFile e n st (fsPath ++ ext) [] opts false targetWeb
           opts.tryPfx opts.skipPackageJson)
        fun st1 =>
      orElseX
        (tryResolveFile e n st1 (file ++ ext) post opts false targetWeb
          opts.tryPfx opts.skipPackageJson)
        fun st2 =>
      extLoop e n st2 rest fsPath file post opts targetWeb

/-- Model of `resolvePackageEntry` (resolve.ts lines 765-878): memoized lookup,
then the entry-point selection wrapped in the try/catch that rethrows as
`packageEntryFailure`. -/
def resolvePackageEntry (e : Env) : Nat → St → Str → Str → Manifest → Bool → Opts →
    Except Er (Str × St)
  | 0, st, _, _, _, _, _ => .error (fuelErrStr, st)
  | n + 1, st, id, dir, data, targetWeb, opts =>
    match getCache st dir ".".data targetWeb with
    | some c =>
      if c.isEmpty then rpeBody e n st id dir data targetWeb opts
      else .ok (c, st)
    | none => rpeBody e n st id dir data targetWeb opts

/-- Body of `resolvePackageEntry` after the cache miss: run the entry-point
selection and wrap failures as `packageEntryFailure`. -/
def rpeBody (e : Env) : Nat → St → Str → Str → Manifest → Bool → Opts →
    Except Er (Str × St)
  | 0, st, _, _, _, _, _ => .error (fuelErrStr, st)
  | n + 1, st, id, dir, data, targetWeb, opts =>
    match rpeInner e n st dir data targetWeb opts with
    | .ok (some r, st') => .ok (r, st')
    | .ok (none, st') => .error (entryFailureMsg id none, st')
    | .error (msg, st') => .error (entryFailureMsg id (some msg), st')

/-- Entry-point selection of `resolvePackageEntry` (resolve.ts lines 775-873):
`exports`, then the browser/UMD step, then `mainFields`, `main`, and the
default entries, ending in the candidate loop. -/
def rpeInner (e : Env) : Nat → St → Str → Manifest → Bool → Opts → FsRes
  | 0, st, _, _, _, _ => .error (fuelErrStr, st)
  | n + 1, st, dir, data, targetWeb, opts =>
    let ep0 : Option Str :=
      if jTruthy (alookup data "exports".data) then
        resolveExportsW e data ".".data opts targetWeb
      else none
    match rpeBrowser e n st ep0 dir data targetWeb opts with
    | .error er => .error er
    | .ok (ep1, st1) =>
      let ep2 : Option Str :=
        if ¬ truthyS ep1 || endsWith (ep1.getD []) ".mjs".data then
          match firstStrFieldOf data (opts.mainFields.getD defaultMainFields) with
          | some v => some v
          | none => ep1
        else ep1
      let ep3 : Option Str := if truthyS ep2 then ep2 else strField data "main".data
      let entryPoints : List Str :=
        if truthyS ep3 then [ep3.getD []]
        else ["index.js".data, "index.json".data, "index.node".data]
      entryLoop e n st1 entryPoints dir data targetWeb opts

/-- Browser-field / UMD-heuristic step of `resolvePackageEntry`
(resolve.ts lines 788-827). -/
def rpeBrowser (e : Env) : Nat → St → Option Str → Str → Manifest → Bool → Opts →
    Except Er (Option Str × St)
  | 0, st, _, _, _, _, _ => .error (fuelErrStr, st)
  | n + 1, st, ep0, dir, data, targetWeb, opts =>
    if targetWeb && (¬ truthyS ep0 || endsWith (ep0.getD []) ".mjs".data) then
      let browserEntry : Option Str :=
        match alookup data "browser".data with
        | some (.jstr s) => some s
        | some (.jobj m) =>
          match alookup m ".".data with
          | some (.jstr s) => some s
          | _ => none
        | _ => none
      if truthyS browserEntry then
        let be := browserEntry.getD []
        if ¬ opts.isRequire
            && (match strField data "module".data with
                | some m => ¬ decide (m = be)
                | none => false) then
          match tryFsResolve e n st (pathJoin dir be) opts true true with
          | .error er => .error er
          | .ok (some rbe, st') =>
            (match alookup e.files rbe with
             | some content =>
               if umdHit content then .ok (strField data "module".data, st')
               else .ok (ep0, st')
             | none => .error ("ENOENT: no such file or directory".data, st'))
          | .ok (none, st') => .ok (ep0, st')
        else .ok (some be, st)
      else .ok (ep0, st)
    else .ok (ep0, st)

/-- Candidate loop of `resolvePackageEntry` (resolve.ts lines 845-873),
including the sass special case (which mutates the options for the remaining
iterations) and the browser-object remap of each entry. -/
def entryLoop (e : Env) : Nat → St → List Str → Str → Manifest → Bool → Opts → FsRes
  | 0, st, _, _, _, _, _ => .error (fuelErrStr, st)
  | n + 1, st, entries, dir, data, targetWeb, opts =>
    match entries with
    | [] => .ok (none, st)
    | entry :: rest =>
      let sassCond :=
        (match opts.mainFields with
         | some (f :: _) => decide (f = "sass".data)
         | _ => false)
        && (match opts.extensions with
            | some exts => ¬ memStr (pathExtname entry) exts
            | none => true)
      let entry1 : Str := if sassCond then [] else entry
      let opts1 : Opts := if sassCond then { opts with skipPackageJson := true } else opts
      let entry2 : Str :=
        if targetWeb then
          match alookup data "browser".data with
          | some (.jobj m) =>
            (match mapWithBrowserField entry1 m with
             | some (.jstr s) => if s.isEmpty then entry1 else s
             | _ => entry1)
          | _ => entry1
        else entry1
      match tryFsResolve e n st (pathJoin dir entry2) opts1 true true with
      | .error er => .error er
      | .ok (some r, st') => .ok (some r, setCache st' dir ".".data targetWeb r)
      | .ok (none, st') => entryLoop e n st' rest dir data targetWeb opts1

/-- Model of `resolveDeepImport` (resolve.ts lines 909-977): memoized lookup,
then the exports / browser-object mapping and the filesystem probe. -/
def resolveDeepImport (e : Env) : Nat → St → Str → Str → Manifest → Bool → Opts →
    Except Er (Option Str × St)
  | 0, st, _, _, _, _, _ => .error (fuelErrStr, st)
  | n + 1, st, id, dir, data, targetWeb, opts =>
    match getCache st dir id targetWeb with
    | some c =>
      if c.isEmpty then rdiBody e n st id dir data targetWeb opts
      else .ok (some c, st)
    | none => rdiBody e n st id dir data targetWeb opts

/-- Body of `resolveDeepImport` after the cache miss. -/
def rdiBody (e : Env) : Nat → St → Str → Str → Manifest → Bool → Opts →
    Except Er (Option Str × St)
  | 0, st, _, _, _, _, _ => .error (fuelErrStr, st)
  | n + 1, st, id, dir, data, targetWeb, opts =>
    let exportsField := alookup data "exports".data
    if jTruthy exportsField then
      let relativeId : Option Str :=
        match exportsField with
        | some (.jobj _) =>
          let fp := splitFileAndPost id
          (match resolveExportsW e data fp.1 opts targetWeb with
           | some x => some (x ++ fp.2)
           | none => none)
        | _ => none
      if truthyS relativeId then
        rdiFinish e n st (relativeId.getD []) id dir data targetWeb opts true
      else .error (deepImportErrMsg relativeId dir, st)
    else
      match (if targetWeb then alookup data "browser".data else none) with
      | some (.jobj m) =>
        let fp := splitFileAndPost id
        (match mapWithBrowserField fp.1 m with
         | some (.jstr s) =>
           let rid := if s.isEmpty then id else s ++ fp.2
           if rid.isEmpty then .ok (none, st)
           else rdiFinish e n st rid id dir data targetWeb opts false
         | some (.jbool false) =>
           .ok (some browserExternalStr, setCache st dir id targetWeb browserExternalStr)
         | _ =>
           if id.isEmpty then .ok (none, st)
           else rdiFinish e n st id id dir data targetWeb opts false)
      | _ =>
        if id.isEmpty then .ok (none, st)
        else rdiFinish e n st id id dir data targetWeb opts false

/-- Final probe of `resolveDeepImport` (resolve.ts lines 961-976): try the
joined path (index only without an `exports` field) and memoize successes. -/
def rdiFinish (e : Env) : Nat → St → Str → Str → Str → Manifest → Bool → Opts →
    Bool → Except Er (Option Str × St)
  | 0, st, _, _, _, _, _, _, _ => .error (fuelErrStr, st)
  | n + 1, st, relativeId, id, dir, _, targetWeb, opts, hasExports =>
    match tryFsResolve e n st (pathJoin dir relativeId) opts (¬ hasExports) targetWeb with
    | .error er => .error er
    | .ok (some resolved, st') => .ok (some resolved, setCache st' dir id targetWeb resolved)
    | .ok (none, st') => .ok (none, st')

/-- Model of `tryNodeResolve` (resolve.ts lines 532-712) up to the point where
an entry or deep import has been resolved; post-processing is `tnrFinish`. -/
def tryNodeResolve (e : Env) : Nat → St → Str → Option Str → Opts → Bool → Bool →
    Option Bool → Except Er (Option RRecord × St)
  | 0, st, _, _, _, _, _, _ => .error (fuelErrStr, st)
  | n + 1, st, id, importer, opts, targetWeb, ssr, externalize =>
    let lastArrow := lastIdxOf id '>'
    let nestedRoot : Str :=
      match lastArrow with
      | some i => trimStr (id.take i)
      | none => []
    let nestedPath : Str :=
      match lastArrow with
      | some i => trimStr (id.drop (i + 1))
      | none => trimStr id
    let pkgIds := possiblePkgIds nestedPath
    let basedir0 : Str :=
      if (match opts.dedupe with
          | some d => d.any (fun dd => memStr dd pkgIds)
          | none => false) then opts.root
      else
        match importer with
        | some imp =>
          if isAbsB imp && fsExists e (fileOf imp) then pathDirname imp else opts.root
        | none => opts.root
    let basedir : Str :=
      if nestedRoot.isEmpty then basedir0
      else e.nestedResolveFromFn nestedRoot basedir0 opts.preserveSymlinks
    match findPkg e pkgIds.reverse basedir with
    | none => .ok (none, st)
    | some (pkgId, dir, data) =>
      let isDeepImport := ¬ decide (pkgId = nestedPath)
      let unresolvedId : Str :=
        if isDeepImport then '.' :: nestedPath.drop pkgId.length else pkgId
      let att1 : Except Er (Option Str × St) :=
        if isDeepImport then resolveDeepImport e n st unresolvedId dir data targetWeb opts
        else
          match resolvePackageEntry e n st unresolvedId dir data targetWeb opts with
          | .ok (r, st') => .ok (some r, st')
          | .error er => .error er
      match att1 with
      | .error (msg, stE) =>
        if opts.tryEsmOnly then
          tnrRetry e n stE id importer opts targetWeb ssr externalize
            pkgId nestedPath isDeepImport unresolvedId dir data
        else .error (msg, stE)
      | .ok (r1, st1) =>
        if truthyS r1 then
          .ok (tnrFinish e st1 id importer opts targetWeb ssr externalize
            pkgId nestedPath isDeepImport dir data (r1.getD []))
        else if opts.tryEsmOnly then
          tnrRetry e n st1 id importer opts targetWeb ssr externalize
            pkgId nestedPath isDeepImport unresolvedId dir data
        else .ok (none, st1)

/-- Retry of `tryNodeResolve` under `tryEsmOnly` (resolve.ts lines 623-630):
same resolution with `isRequire=false` and default main fields/extensions. -/
def tnrRetry (e : Env) : Nat → St → Str → Option Str → Opts → Bool → Bool →
    Option Bool → Str → Str → Bool → Str → Str → Manifest →
    Except Er (Option RRecord × St)
  | 0, st, _, _, _, _, _, _, _, _, _, _, _, _ => .error (fuelErrStr, st)
  | n + 1, st, id, importer, opts, targetWeb, ssr, externalize,
      pkgId, nestedPath, isDeepImport, unresolvedId, dir, data =>
    let opts2 : Opts :=
      { opts with
        isRequire := false
        mainFields := some defaultMainFields
        extensions := some defaultExtensions }
    let att : Except Er (Option Str × St) :=
      if isDeepImport then resolveDeepImport e n st unresolvedId dir data targetWeb opts2
      else
        match resolvePackageEntry e n st unresolvedId dir data targetWeb opts2 with
        | .ok (r, st') => .ok (some r, st')
        | .error er => .error er
    match att with
    | .error er => .error er
    | .ok (r2, st2) =>
      if truthyS r2 then
        .ok (tnrFinish e st2 id importer opts targetWeb ssr externalize
          pkgId nestedPath isDeepImport dir data (r2.getD []))
      else .ok (none, st2)

end

/-- Nested-dependency loop of `tryOptimizedResolve` (resolve.ts lines 737-762)
with the lazily computed `resolvedSrc`; a `resolveFrom` failure breaks. -/
def optLoop (e : Env) (opt : Optimizer) (id imp : Str) :
    List DepInfo → Option Str → Option Str
  | [], _ => none
  | d :: rest, rs =>
    if (match d.src with
        | none => true
        | some s => s.isEmpty) then optLoop e opt id imp rest rs
    else if ¬ endsWith d.id id then optLoop e opt id imp rest rs
    else
      match rs with
      | some src =>
        if d.src = some src then some (opt.getOptimizedDepId d)
        else optLoop e opt id imp rest rs
      | none =>
        match e.resolveFromFn id (pathDirname imp) with
        | none => none
        | some r =>
          let src := posixNormalize r
          if d.src = some src then some (opt.getOptimizedDepId d)
          else optLoop e opt id imp rest (some src)

/-- Model of `tryOptimizedResolve` (resolve.ts lines 714-763). -/
def tryOptimizedResolve (e : Env) (opt : Optimizer) (ssr0 : Bool) (id : Str)
    (importer : Option Str) : Option Str :=
  match opt.metadata ssr0 with
  | none => none
  | some md =>
    match md.byId id with
    | some di => some (opt.getOptimizedDepId di)
    | none =>
      match importer with
      | none => none
      | some imp => optLoop e opt id imp md.depInfoList none

/-- Model of `tryResolveBrowserMapping` (resolve.ts lines 979-1007). -/
def tryResolveBrowserMapping (e : Env) : Nat → St → Str → Option Str → Opts →
    Bool → Option Bool → Except Er (Option RRes × St)
  | 0, st, _, _, _, _, _ => .error (fuelErrStr, st)
  | n + 1, st, id, importer, opts, isFilePath, externalize =>
    match (match importer with
           | some imp => alookup st.idToPkg imp
           | none => none) with
    | some (dir, data) =>
      (match alookup data "browser".data with
       | some (.jobj m) =>
         let mapId : Str := if isFilePath then '.' :: '/' :: pathRelative dir id else id
         (match mapWithBrowserField mapId m with
          | some (.jstr s) =>
            if s.isEmpty then .ok (none, st)
            else
              (match tryFsResolve e n st (pathJoin dir s) opts true true with
               | .error er => .error er
               | .ok (some res, st') =>
                 let rec0 : RRecord :=
                   { id := res, sideEffects := some (e.hasSideEffectsFn dir res) }
                 .ok (some (.rrec (if truthyOB externalize then { rec0 with external := true }
                       else rec0)), setIdToPkg st' res dir data)
               | .ok (none, st') => .ok (none, st'))
          | some (.jbool false) => .ok (some (.rstr browserExternalStr), st)
          | _ => .ok (none, st))
       | _ => .ok (none, st))
    | none => .ok (none, st)

/-- Relative branch of the orchestrator (resolve.ts lines 172-239). -/
def resolveIdRelative (e : Env) (n : Nat) (st : St) (id : Str) (importer : Option Str)
    (ssr0 : Bool) (targetWeb : Bool) (opts : Opts) : Except Er (Option RRes × St) :=
  let basedir : Str :=
    match importer with
    | some imp => pathDirname imp
    | none => e.cwd
  let fsPath := pathResolve basedir id
  let normalizedFsPath := posixNormalize fsPath
  let optFile :=
    match e.depsOptimizer with
    | some o => o.isOptimizedDepFile normalizedFsPath
    | none => false
  if optFile then
    if ¬ hasVersionQuery normalizedFsPath then
      let bh : Option Str :=
        match e.depsOptimizer with
        | some o =>
          (match o.metadata ssr0 with
           | some md =>
             (match md.byFile normalizedFsPath with
              | some di => di.browserHash
              | none => none)
           | none => none)
        | none => none
      match bh with
      | some h => .ok (some (.rstr (injectQuery normalizedFsPath ("v=".data ++ h))), st)
      | none => .ok (some (.rstr normalizedFsPath), st)
    else .ok (some (.rstr normalizedFsPath), st)
  else
    orElseX
      (if startsWith (normalizedFsPath.drop basedir.length) "/node_modules/".data then
        let bareImport := (normalizedFsPath.drop basedir.length).drop ("/node_modules/".data.length)
        match tryNodeResolve e n st bareImport importer opts targetWeb ssr0 none with
        | .error er => .error er
        | .ok (some rec0, st') =>
          if startsWith rec0.id normalizedFsPath then .ok (some (.rrec rec0), st')
          else .ok (none, st')
        | .ok (none, st') => .ok (none, st')
       else .ok (none, st))
      fun st1 =>
    orElseX
      (if targetWeb then tryResolveBrowserMapping e n st1 fsPath importer opts true none
       else .ok (none, st1))
      fun st2 =>
    match tryFsResolve e n st2 fsPath opts true true with
    | .error er => .error er
    | .ok (some res, st3) =>
      if res.isEmpty then .ok (none, st3)
      else
        (match (match importer with
                | some imp => alookup st3.idToPkg imp
                | none => none) with
         | some (dir, data) =>
           .ok (some (.rrec { id := res, sideEffects := some (e.hasSideEffectsFn dir res) }),
             setIdToPkg st3 res dir data)
         | none => .ok (some (.rstr res), st3))
    | .ok (none, st3) => .ok (none, st3)

/-- Bare-import branch of the orchestrator (resolve.ts lines 261-333),
including the node-builtin tail. -/
def resolveIdBare (e : Env) (n : Nat) (st : St) (id : Str) (importer : Option Str)
    (ssr0 : Bool) (targetWeb : Bool) (opts : Opts) : Except Er (Option RRes × St) :=
  let external : Option Bool :=
    match opts.shouldExternalize with
    | some f => f id
    | none => none
  orElseX
    (if ¬ truthyOB external && opts.asSrc && e.depsOptimizer.isSome && ¬ opts.scan then
      match e.depsOptimizer with
      | some opt =>
        (match tryOptimizedResolve e opt ssr0 id importer with
         | some r => .ok (some (.rstr r), st)
         | none => .ok (none, st))
      | none => .ok (none, st)
     else .ok (none, st))
    fun st1 =>
  orElseX
    (if targetWeb then tryResolveBrowserMapping e n st1 id importer opts false external
     else .ok (none, st1))
    fun st2 =>
  orElseX
    (match tryNodeResolve e n st2 id importer opts targetWeb ssr0 external with
     | .error er => .error er
     | .ok (some rec0, st') => .ok (some (.rrec rec0), st')
     | .ok (none, st') => .ok (none, st'))
    fun st3 =>
  if memStr id e.builtins then
    if ssr0 then
      if opts.ssrNoExternalTrue then .error (builtinErrMsg id importer e.cwd, st3)
      else .ok (some (.rrec { id := id, external := true }), st3)
    else
      .ok (some (.rstr (if opts.isProduction then browserExternalStr
            else browserExternalStr ++ ':' :: id)), st3)
  else .ok (none, st3)

/-- Merged per-call options of the orchestrator (resolve.ts lines 125-138):
`isRequire` from the `node-resolve` custom hint, `scan` from the hook options,
`isFromTsImporter` from the importer (the plugin-level `resolveOptions` of the
source carries no own `isRequire`/`scan` overrides at construction). -/
def mergedOpts (e : Env) (base : Opts) (importer : Option Str) (scanOpt : Option Bool)
    (customIsRequire : Bool) : Opts :=
  let isFromTs : Bool :=
    match importer with
    | some imp =>
      if isTsRequest imp then true
      else
        (match e.moduleLang imp with
         | some lang => isTsRequest ('.' :: lang)
         | none => false)
    | none => base.isFromTsImporter
  { base with
    isRequire := customIsRequire
    scan := scanOpt.getD base.scan
    isFromTsImporter := isFromTs }

/-- Model of the orchestrator hook `resolveId` (resolve.ts lines 103-336).
Arguments after the state: the specifier, the importer, the hook `ssr` flag,
the hook `scan` option and the `node-resolve` custom `isRequire` hint. -/
def resolveId (e : Env) : Nat → St → Str → Option Str → Bool → Option Bool → Bool →
    Opts → Except Er (Option RRes × St)
  | 0, st, _, _, _, _, _, _ => .error (fuelErrStr, st)
  | n + 1, st, id, importer, ssr0, scanOpt, customIsRequire, base =>
    if startsWith id browserExternalStr then .ok (some (.rstr id), st)
    else if containsSub id "?commonjs".data || decide (id = "commonjsHelpers.js".data) then
      .ok (none, st)
    else
      let targetWeb := ¬ ssr0 || base.ssrTargetWebworker
      let opts := mergedOpts e base importer scanOpt customIsRequire
      let optUrl :=
        match e.depsOptimizer with
        | some o => o.isOptimizedDepUrl id
        | none => false
      if opts.asSrc && optUrl then
        .ok (some (.rstr (if startsWith id fsPrefixStr then fsPathFromId id
              else posixNormalize (pathResolve opts.root (id.drop 1)))), st)
      else if opts.asSrc && startsWith id fsPrefixStr then
        let fsPath := fsPathFromId id
        match tryFsResolve e n st fsPath opts true true with
        | .error er => .error er
        | .ok (r, st') =>
          .ok (some (.rstr (match r with
                | some res => if res.isEmpty then fsPath else res
                | none => fsPath)), st')
      else
        orElseX
          (if opts.asSrc && startsWith id "/".data then
            match tryFsResolve e n st (pathResolve opts.root (id.drop 1)) opts true true with
            | .error er => .error er
            | .ok (some res, st') =>
              if res.isEmpty then .ok (none, st') else .ok (some (.rstr res), st')
            | .ok (none, st') => .ok (none, st')
           else .ok (none, st))
          fun st1 =>
        orElseX
          (if startsWith id ".".data
              || (opts.preferRelative
                    && (match id.head? with
                        | some c => isWordChar c
                        | none => false))
              || (match importer with
                  | some imp => endsWith imp ".html".data
                  | none => false) then
            resolveIdRelative e n st1 id importer ssr0 targetWeb opts
           else .ok (none, st1))
          fun st2 =>
        orElseX
          (if isAbsB id then
            match tryFsResolve e n st2 id opts true true with
            | .error er => .error er
            | .ok (some res, st') =>
              if res.isEmpty then .ok (none, st') else .ok (some (.rstr res), st')
            | .ok (none, st') => .ok (none, st')
           else .ok (none, st2))
          fun st3 =>
        orElseX
          (if isExternalUrl id then .ok (some (.rrec { id := id, external := true }), st3)
           else if isDataUrl id then .ok (some .rnull, st3)
           else .ok (none, st3))
          fun st4 =>
        if bareImportTest id then resolveIdBare e n st4 id importer ssr0 targetWeb opts
        else .ok (none, st4)

/-! ## Basic lemmas -/

theorem charIdx_get? : ∀ (l : Str) (c : Char) (i : Nat), charIdx l c = some i →
    l[i]? = some c := by
  intro l
  induction l with
  | nil => intro c i h; simp [charIdx] at h
  | cons a t ih =>
    intro c i h
    by_cases hac : a = c
    · simp [charIdx, hac] at h
      subst h
      simp [hac]
    · simp [charIdx, hac] at h
      obtain ⟨j, hj, rfl⟩ := h
      simpa using ih c j hj

theorem head?_drop_eq : ∀ (l : Str) (i : Nat), (l.drop i).head? = l[i]? := by
  intro l
  induction l with
  | nil => intro i; cases i <;> rfl
  | cons a t ih =>
    intro i
    cases i with
    | zero => simp
    | succ j => simp [ih j]

/-- The two halves of `splitFileAndPost` recombine to the input. -/
theorem splitFileAndPost_append (p : Str) :
    (splitFileAndPost p).1 ++ (splitFileAndPost p).2 = p := by
  unfold splitFileAndPost
  cases h : (match charIdx p '?' with
    | some i => some i
    | none => charIdx p '#') with
  | none => simp
  | some i =>
    by_cases hi : 0 < i
    · simp [hi, List.take_append_drop]
    · simp [hi]

/-- The postfix of `splitFileAndPost` is empty or starts with `?` or `#`. -/
theorem splitFileAndPost_postOk (p : Str) : postOk (splitFileAndPost p).2 := by
  unfold splitFileAndPost postOk
  cases hq : charIdx p '?' with
  | some i =>
    simp only [hq]
    by_cases hi : 0 < i
    · simp only [hi, if_true]
      have hg := charIdx_get? p '?' i hq
      exact Or.inr (Or.inl (by simp [head?_drop_eq, hg]))
    · simp [hi]
  | none =>
    simp only [hq]
    cases hh : charIdx p '#' with
    | some i =>
      simp only [hh]
      by_cases hi : 0 < i
      · simp only [hi, if_true]
        have hg := charIdx_get? p '#' i hh
        exact Or.inr (Or.inr (by simp [head?_drop_eq, hg]))
      · simp [hi]
    | none => simp [hh]

/-! ## C4: splitFileAndPostfix -/

/-- C4 counterexample: for `"a#b?c"`, which contains both `?` and `#` with the
`#` first (index 1), the code splits at the `?` (index 3), so the postfix is
`"?c"` and not everything from the first-occurring separator. -/
theorem c4_counterexample :
    containsSub "a#b?c".data "?".data = true ∧
    containsSub "a#b?c".data "#".data = true ∧
    charIdx "a#b?c".data '#' = some 1 ∧
    charIdx "a#b?c".data '?' = some 3 ∧
    splitFileAndPost "a#b?c".data = ("a#b".data, "?c".data) ∧
    ¬ (splitFileAndPost "a#b?c".data).2 = "#b?c".data := by decide

/-- C4 (amended): `splitFileAndPostfix` always satisfies
`file ++ postfix = fsPath` with a postfix that is empty or begins with `?` or
`#`; the postfix starts at the first `?` whenever a `?` occurs at a positive
index (the `#` is consulted only when no `?` occurs at all). -/
theorem c4_split_behavior (p : Str) :
    (splitFileAndPost p).1 ++ (splitFileAndPost p).2 = p ∧
    postOk (splitFileAndPost p).2 ∧
    (∀ i, charIdx p '?' = some i → 0 < i → splitFileAndPost p = (p.take i, p.drop i)) := by
  refine ⟨splitFileAndPost_append p, splitFileAndPost_postOk p, ?_⟩
  intro i hq hi
  unfold splitFileAndPost
  simp [hq, hi]

/-- C4 witness: the amended statement applied at `"xy?z"`. -/
theorem c4_witness :
    splitFileAndPost "xy?z".data = ("xy?z".data.take 2, "xy?z".data.drop 2) :=
  (c4_split_behavior "xy?z".data).2.2 2 (by decide) (by decide)

/-! ## C3: possiblePkgIds decomposition -/

/-- C3 counterexample: for `"a.b/c"` the loop also pushes `"a.b/c"` itself
(the part `"c"` carries no extension, so it is not skipped), hence
`possiblePkgIds ≠ ["a.b"]`. -/
theorem c3_counterexample :
    ¬ possiblePkgIds "a.b/c".data = ["a.b".data] := by decide

/-- C3 (amended): the decomposition yields `["@scope/a", "@scope/a/b"]` and
`["a", "a/b"]` as claimed, but `["a.b", "a.b/c"]` for `"a.b/c"`. -/
theorem c3_decomposition :
    possiblePkgIds "@scope/a/b/c.js".data = ["@scope/a".data, "@scope/a/b".data] ∧
    possiblePkgIds "a/b/c.js".data = ["a".data, "a/b".data] ∧
    possiblePkgIds "a.b/c".data = ["a.b".data, "a.b/c".data] := by decide

/-! ## C10: tryOptimizedResolve without importer -/

/-- C10: when no importer is given and the metadata does not list the id
directly, `tryOptimizedResolve` returns `undefined` for every `depInfoList`
whatsoever — the nested-dependency candidates are never examined. -/
theorem c10_no_importer_no_nested (e : Env) (opt : Optimizer) (ssr0 : Bool) (id : Str)
    (md : DepMetadata) (hmd : opt.metadata ssr0 = some md) (hbyid : md.byId id = none) :
    tryOptimizedResolve e opt ssr0 id none = none := by
  unfold tryOptimizedResolve
  simp [hmd, hbyid]

/-- Environment for the C10 witness: `resolveFrom` finds the nested source. -/
def c10Env : Env := { resolveFromFn := fun _ _ => some "/p/node_modules/foo/i.js".data }

/-- Optimizer for the C10 witness: the dep list contains an entry that a
nested-dependency search would match. -/
def c10Opt : Optimizer :=
  { metadata := fun _ => some
      { depInfoList := [{ id := "foo".data, src := some "/p/node_modules/foo/i.js".data }] }
    getOptimizedDepId := fun _ => "/deps/foo.js".data }

/-- C10 witness: without an importer the matching dep-list entry is ignored;
with an importer the very same entry is found. -/
theorem c10_witness :
    tryOptimizedResolve c10Env c10Opt false "foo".data none = none ∧
    tryOptimizedResolve c10Env c10Opt false "foo".data (some "/p/app.js".data)
      = some "/deps/foo.js".data :=
  ⟨c10_no_importer_no_nested c10Env c10Opt false "foo".data _ rfl rfl, rfl⟩

/-! ## C2: deep-import exports error message -/

/-- Environment for C2: package `bar` whose `exports` defines only `./sub`. -/
def c2Env : Env :=
  { resolveExportsFn := fun _ key _ _ _ =>
      if key = "./sub".data then some "./lib/sub.js".data else none
    files := [("/p/node_modules/bar/lib/sub.js".data, "x".data)]
    dirs := ["/p/node_modules/bar".data, "/p/node_modules/bar/lib".data] }

/-- Manifest of package `bar` for C2. -/
def c2Data : Manifest := [("exports".data, .jobj [("./sub".data, .jstr "./lib/sub.js".data)])]

/-- Options for C2. -/
def c2Opts : Opts := { root := "/p".data }

/-- C2: at the failing input (subpath `./other`, not defined by `exports`),
`resolveDeepImport` raises a fatal error that names the manifest path but
interpolates the JS string `undefined` where the claim expects the requested
subpath — because the code clears `relativeId` before building the message.
The defined subpath `./sub` resolves normally. -/
theorem c2_error_message_bug :
    resolveDeepImport c2Env 30 ⟨[], []⟩ "./other".data "/p/node_modules/bar".data c2Data
        true c2Opts
      = .error (deepImportErrMsg none "/p/node_modules/bar".data, ⟨[], []⟩) ∧
    containsSub (deepImportErrMsg none "/p/node_modules/bar".data) "undefined".data = true ∧
    containsSub (deepImportErrMsg none "/p/node_modules/bar".data)
      "/p/node_modules/bar/package.json".data = true ∧
    containsSub (deepImportErrMsg none "/p/node_modules/bar".data) "./other".data = false ∧
    resolveDeepImport c2Env 30 ⟨[], []⟩ "./sub".data "/p/node_modules/bar".data c2Data
        true c2Opts
      = .ok (some "/p/node_modules/bar/lib/sub.js".data,
          ⟨[(("/p/node_modules/bar".data, "./sub".data, true),
             "/p/node_modules/bar/lib/sub.js".data)], []⟩) := by
  refine ⟨rfl, by decide, by decide, by decide, rfl⟩

/-! ## C5: browser UMD heuristic -/

/-- Environment for C5: package `foo` with a UMD browser build. -/
def c5Env : Env :=
  { files := [("/p/node_modules/foo/foo.browser.js".data, "var x; module.exports = x".data),
              ("/p/node_modules/foo/foo.mjs".data, "export default 1".data),
              ("/p/node_modules/foo/foo.cjs".data, "module.exports = 1".data)]
    dirs := ["/p".data, "/p/node_modules".data, "/p/node_modules/foo".data] }

/-- Manifest of package `foo` for C5: `main`, `module` and a string `browser`
field, no `exports`. -/
def c5Data : Manifest :=
  [("main".data, .jstr "foo.cjs".data), ("module".data, .jstr "foo.mjs".data),
   ("browser".data, .jstr "foo.browser.js".data)]

/-- Options for C5 (`isRequire` is false by default). -/
def c5Opts : Opts := { root := "/p".data }

/-- C5: with `targetWeb = true` and `isRequire = false`, the browser entry's
content matches `/module\.exports\s*=/`, so the UMD heuristic prefers the
`module` field and the entry resolves to `<dir>/foo.mjs` (and is memoized). -/
theorem c5_umd_heuristic :
    resolvePackageEntry c5Env 30 ⟨[], []⟩ "foo".data "/p/node_modules/foo".data c5Data
        true c5Opts
      = .ok ("/p/node_modules/foo/foo.mjs".data,
          ⟨[(("/p/node_modules/foo".data, ".".data, true),
             "/p/node_modules/foo/foo.mjs".data)], []⟩) := rfl

/-! ## Lemmas towards the memoization claim -/

theorem getCache_set_same (st : St) (d k : Str) (tw : Bool) (v : Str) :
    getCache (setCache st d k tw v) d k tw = some v := by
  simp [getCache, setCache, clookup]

theorem normRelGo_ne_nil : ∀ (l acc : List Str), (∀ x ∈ acc, x ≠ []) →
    ∀ x ∈ normRelGo acc l, x ≠ [] := by
  intro l
  induction l with
  | nil =>
    intro acc hacc x hx
    unfold normRelGo at hx
    exact hacc x (List.mem_reverse.mp hx)
  | cons s r ih =>
    intro acc hacc x hx
    unfold normRelGo at hx
    by_cases h1 : s = [] ∨ s = ['.']
    · rw [if_pos (by simpa using h1)] at hx
      exact ih acc hacc x hx
    · rw [if_neg (by simpa using h1)] at hx
      by_cases h2 : s = ['.', '.']
      · rw [if_pos h2] at hx
        cases acc with
        | nil =>
          exact ih [s] (by intro y hy; simp at hy; subst hy; simp [h2]) x hx
        | cons t rest =>
          dsimp only at hx
          by_cases h3 : t = ['.', '.']
          · rw [if_pos h3] at hx
            refine ih (s :: t :: rest) ?_ x hx
            intro y hy
            rcases List.mem_cons.mp hy with rfl | hy
            · simp [h2]
            · exact hacc y hy
          · rw [if_neg h3] at hx
            exact ih rest (fun y hy => hacc y (List.mem_cons_of_mem t hy)) x hx
      · rw [if_neg h2] at hx
        refine ih (s :: acc) ?_ x hx
        intro y hy
        rcases List.mem_cons.mp hy with rfl | hy
        · intro hcon
          exact h1 (Or.inl hcon)
        · exact hacc y hy

theorem joinSlash_cons_ne_nil (x : Str) (r : List Str) (hx : x ≠ []) :
    joinSlash (x :: r) ≠ [] := by
  cases r with
  | nil => simpa [joinSlash] using hx
  | cons y t => simp [joinSlash]

theorem posixNormalize_ne_nil (p : Str) : posixNormalize p ≠ [] := by
  unfold posixNormalize
  by_cases hp : p = []
  · simp [hp]
  · rw [if_neg hp]
    by_cases ha : isAbsB p = true
    · simp [ha]
    · rw [if_neg ha]
      cases hs : normRelGo [] (splitSlash p) with
      | nil => simp [hs]
      | cons x r =>
        rw [if_neg (by simp)]
        exact joinSlash_cons_ne_nil x r
          (normRelGo_ne_nil (splitSlash p) [] (by simp) x (by rw [hs]; simp))

theorem getRealPath_ne_nil (e : Env) (f : Str) (ps : Bool) : getRealPath e f ps ≠ [] :=
  posixNormalize_ne_nil _

theorem err_ne_ok {er : Er} {v : Option Str × St}
    (h : (Except.error er : Except Er (Option Str × St)) = .ok v) : False :=
  Except.noConfusion h

theorem err_ne_ok2 {er : Er} {v : Str × St}
    (h : (Except.error er : Except Er (Str × St)) = .ok v) : False :=
  Except.noConfusion h

theorem ok_none_ne_some {st st' : St} {r : Str}
    (h : (Except.ok (none, st) : Except Er (Option Str × St)) = .ok (some r, st')) : False := by
  have h2 : ((none : Option Str), st) = (some r, st') := Except.ok.inj h
  have h3 : (none : Option Str) = some r := congrArg Prod.fst h2
  exact Option.noConfusion h3

theorem orElseX_ok_some {α : Type} {x : Except Er (Option α × St)}
    {k : St → Except Er (Option α × St)} {r : α} {st' : St}
    (h : orElseX x k = .ok (some r, st')) :
    x = .ok (some r, st') ∨ ∃ st1, x = .ok (none, st1) ∧ k st1 = .ok (some r, st') := by
  cases x with
  | error er => simp [orElseX] at h
  | ok p =>
    obtain ⟨o, st1⟩ := p
    cases o with
    | some v =>
      simp only [orElseX] at h
      exact Or.inl h
    | none =>
      exact Or.inr ⟨st1, rfl, by simpa [orElseX] using h⟩

/-- Master nonemptiness and cache-write lemma for the probing functions: every
successful resolution is a nonempty string, and `resolvePackageEntry` /
`resolveDeepImport` leave their result in the per-package resolved cache. -/
theorem m1_master (e : Env) : ∀ n : Nat,
    (∀ st file post opts ti tw tp sp r st',
      tryResolveFile e n st file post opts ti tw tp sp = .ok (some r, st') → r ≠ []) ∧
    (∀ st file post opts ti tw tp sp r st',
      trfTail e n st file post opts ti tw tp sp = .ok (some r, st') → r ≠ []) ∧
    (∀ st cands post opts ti tw tp sp r st',
      tsLoop e n st cands post opts ti tw tp sp = .ok (some r, st') → r ≠ []) ∧
    (∀ st fsPath opts ti tw r st',
      tryFsResolve e n st fsPath opts ti tw = .ok (some r, st') → r ≠ []) ∧
    (∀ st exts fsPath file post opts tw r st',
      extLoop e n st exts fsPath file post opts tw = .ok (some r, st') → r ≠ []) ∧
    (∀ st id dir data tw opts r st',
      resolvePackageEntry e n st id dir data tw opts = .ok (r, st') →
        r ≠ [] ∧ getCache st' dir ".".data tw = some r) ∧
    (∀ st id dir data tw opts r st',
      rpeBody e n st id dir data tw opts = .ok (r, st') →
        r ≠ [] ∧ getCache st' dir ".".data tw = some r) ∧
    (∀ st dir data tw opts r st',
      rpeInner e n st dir data tw opts = .ok (some r, st') →
        r ≠ [] ∧ getCache st' dir ".".data tw = some r) ∧
    (∀ st entries dir data tw opts r st',
      entryLoop e n st entries dir data tw opts = .ok (some r, st') →
        r ≠ [] ∧ getCache st' dir ".".data tw = some r) ∧
    (∀ st id dir data tw opts r st',
      resolveDeepImport e n st id dir data tw opts = .ok (some r, st') →
        r ≠ [] ∧ getCache st' dir id tw = some r) ∧
    (∀ st id dir data tw opts r st',
      rdiBody e n st id dir data tw opts = .ok (some r, st') →
        r ≠ [] ∧ getCache st' dir id tw = some r) ∧
    (∀ st rid id dir data tw opts hx r st',
      rdiFinish e n st rid id dir data tw opts hx = .ok (some r, st') →
        r ≠ [] ∧ getCache st' dir id tw = some r) := by
  intro n
  induction n with
  | zero =>
    exact ⟨fun _ _ _ _ _ _ _ _ _ _ h => (err_ne_ok h).elim,
           fun _ _ _ _ _ _ _ _ _ _ h => (err_ne_ok h).elim,
           fun _ _ _ _ _ _ _ _ _ _ h => (err_ne_ok h).elim,
           fun _ _ _ _ _ _ _ h => (err_ne_ok h).elim,
           fun _ _ _ _ _ _ _ _ _ h => (err_ne_ok h).elim,
           fun _ _ _ _ _ _ _ _ h => (err_ne_ok2 h).elim,
           fun _ _ _ _ _ _ _ _ h => (err_ne_ok2 h).elim,
           fun _ _ _ _ _ _ _ h => (err_ne_ok h).elim,
           fun _ _ _ _ _ _ _ _ h => (err_ne_ok h).elim,
           fun _ _ _ _ _ _ _ _ h => (err_ne_ok h).elim,
           fun _ _ _ _ _ _ _ _ h => (err_ne_ok h).elim,
           fun _ _ _ _ _ _ _ _ _ _ h => (err_ne_ok h).elim⟩
  | succ n ih =>
    obtain ⟨iht, ihtt, ihts, ihf, ihe, ihp, ihpb, ihpi, ihel, ihd, ihdb, ihdf⟩ := ih
    refine ⟨?_, ?_, ?_, ?_, ?_, ?_, ?_, ?_, ?_, ?_, ?_, ?_⟩
    · -- T1 tryResolveFile
      intro st file post opts ti tw tp sp r st' h
      simp only [tryResolveFile] at h
      split at h
      · split at h
        · simp only [Except.ok.injEq, Prod.mk.injEq, Option.some.injEq] at h
          obtain ⟨h1, -⟩ := h
          subst h1
          intro hc
          rw [List.append_eq_nil] at hc
          exact getRealPath_ne_nil e file opts.preserveSymlinks hc.1
        · split at h
          · split at h
            · split at h
              · exact (err_ne_ok h).elim
              · rename_i idx st1 heq
                simp only [Except.ok.injEq, Prod.mk.injEq, Option.some.injEq] at h
                obtain ⟨h1, -⟩ := h
                subst h1
                intro hc
                rw [List.append_eq_nil] at hc
                exact ihf _ _ _ _ _ _ _ heq hc.1
              · exact ihtt _ _ _ _ _ _ _ _ _ _ h
            · split at h
              · rename_i data heq
                split at h
                · rename_i rr st1 heq2
                  simp only [Except.ok.injEq, Prod.mk.injEq, Option.some.injEq] at h
                  obtain ⟨h1, -⟩ := h
                  subst h1
                  exact (ihp _ _ _ _ _ _ _ _ heq2).1
                · exact (err_ne_ok h).elim
              · split at h
                · exact (err_ne_ok h).elim
                · rename_i idx st1 heq
                  simp only [Except.ok.injEq, Prod.mk.injEq, Option.some.injEq] at h
                  obtain ⟨h1, -⟩ := h
                  subst h1
                  intro hc
                  rw [List.append_eq_nil] at hc
                  exact ihf _ _ _ _ _ _ _ heq hc.1
                · exact ihtt _ _ _ _ _ _ _ _ _ _ h
          · exact ihtt _ _ _ _ _ _ _ _ _ _ h
      · exact ihtt _ _ _ _ _ _ _ _ _ _ h
    · -- T2 trfTail
      intro st file post opts ti tw tp sp r st' h
      simp only [trfTail] at h
      split at h
      · exact ihts _ _ _ _ _ _ _ _ _ _ h
      · split at h
        · exact iht _ _ _ _ _ _ _ _ _ _ h
        · exact (ok_none_ne_some h).elim
    · -- T3 tsLoop
      intro st cands post opts ti tw tp sp r st' h
      simp only [tsLoop] at h
      split at h
      · exact (ok_none_ne_some h).elim
      · split at h
        · exact (err_ne_ok h).elim
        · rename_i rv st1 heq
          simp only [Except.ok.injEq, Prod.mk.injEq, Option.some.injEq] at h
          obtain ⟨h1, -⟩ := h
          subst h1
          exact iht _ _ _ _ _ _ _ _ _ _ heq
        · exact ihts _ _ _ _ _ _ _ _ _ _ h
    · -- T4 tryFsResolve
      intro st fsPath opts ti tw r st' h
      simp only [tryFsResolve] at h
      rcases orElseX_ok_some h with h | ⟨st1, -, h⟩
      · split at h
        · exact (ok_none_ne_some h).elim
        · exact iht _ _ _ _ _ _ _ _ _ _ h
      rcases orElseX_ok_some h with h | ⟨st2, -, h⟩
      · exact iht _ _ _ _ _ _ _ _ _ _ h
      rcases orElseX_ok_some h with h | ⟨st3, -, h⟩
      · exact ihe _ _ _ _ _ _ _ _ _ h
      rcases orElseX_ok_some h with h | ⟨st4, -, h⟩
      · split at h
        · exact (ok_none_ne_some h).elim
        · exact iht _ _ _ _ _ _ _ _ _ _ h
      exact iht _ _ _ _ _ _ _ _ _ _ h
    · -- T5 extLoop
      intro st exts fsPath file post opts tw r st' h
      simp only [extLoop] at h
      split at h
      · exact (ok_none_ne_some h).elim
      · rcases orElseX_ok_some h with h | ⟨st1, -, h⟩
        · split at h
          · exact (ok_none_ne_some h).elim
          · exact iht _ _ _ _ _ _ _ _ _ _ h
        rcases orElseX_ok_some h with h | ⟨st2, -, h⟩
        · exact iht _ _ _ _ _ _ _ _ _ _ h
        exact ihe _ _ _ _ _ _ _ _ _ h
    · -- T6 resolvePackageEntry
      intro st id dir data tw opts r st' h
      simp only [resolvePackageEntry] at h
      split at h
      · rename_i c heq
        split at h
        · exact ihpb _ _ _ _ _ _ _ _ h
        · rename_i hne
          simp only [Except.ok.injEq, Prod.mk.injEq] at h
          obtain ⟨h1, h2⟩ := h
          subst h1
          subst h2
          refine ⟨?_, heq⟩
          simpa using hne
      · exact ihpb _ _ _ _ _ _ _ _ h
    · -- T7 rpeBody
      intro st id dir data tw opts r st' h
      simp only [rpeBody] at h
      split at h
      · rename_i rr st1 heq
        simp only [Except.ok.injEq, Prod.mk.injEq] at h
        obtain ⟨h1, h2⟩ := h
        subst h1
        subst h2
        exact ihpi _ _ _ _ _ _ _ heq
      · exact (err_ne_ok2 h).elim
      · exact (err_ne_ok2 h).elim
    · -- T8 rpeInner
      intro st dir data tw opts r st' h
      simp only [rpeInner] at h
      split at h
      · exact (err_ne_ok h).elim
      · exact ihel _ _ _ _ _ _ _ _ h
    · -- T9 entryLoop
      intro st entries dir data tw opts r st' h
      simp only [entryLoop] at h
      split at h
      · exact (ok_none_ne_some h).elim
      · split at h
        · exact (err_ne_ok h).elim
        · rename_i rr st1 heq
          simp only [Except.ok.injEq, Prod.mk.injEq, Option.some.injEq] at h
          obtain ⟨h1, h2⟩ := h
          subst h1
          subst h2
          exact ⟨ihf _ _ _ _ _ _ _ heq, getCache_set_same _ _ _ _ _⟩
        · exact ihel _ _ _ _ _ _ _ _ h
    · -- T10 resolveDeepImport
      intro st id dir data tw opts r st' h
      simp only [resolveDeepImport] at h
      split at h
      · rename_i c heq
        split at h
        · exact ihdb _ _ _ _ _ _ _ _ h
        · rename_i hne
          simp only [Except.ok.injEq, Prod.mk.injEq, Option.some.injEq] at h
          obtain ⟨h1, h2⟩ := h
          subst h1
          subst h2
          refine ⟨?_, heq⟩
          simpa using hne
      · exact ihdb _ _ _ _ _ _ _ _ h
    · -- T11 rdiBody
      intro st id dir data tw opts r st' h
      simp only [rdiBody] at h
      split at h
      · split at h
        · exact ihdf _ _ _ _ _ _ _ _ _ _ h
        · exact (err_ne_ok h).elim
      · split at h
        · split at h
          · split at h
            · split at h
              · exact (ok_none_ne_some h).elim
              · exact ihdf _ _ _ _ _ _ _ _ _ _ h
            · split at h
              · exact (ok_none_ne_some h).elim
              · exact ihdf _ _ _ _ _ _ _ _ _ _ h
          · simp only [Except.ok.injEq, Prod.mk.injEq, Option.some.injEq] at h
            obtain ⟨h1, h2⟩ := h
            subst h1
            subst h2
            exact ⟨by decide, getCache_set_same _ _ _ _ _⟩
          all_goals
            split at h
            · exact (ok_none_ne_some h).elim
            · exact ihdf _ _ _ _ _ _ _ _ _ _ h
        all_goals
          split at h
          · exact (ok_none_ne_some h).elim
          · exact ihdf _ _ _ _ _ _ _ _ _ _ h
    · -- T12 rdiFinish
      intro st rid id dir data tw opts hx r st' h
      simp only [rdiFinish] at h
      split at h
      · exact (err_ne_ok h).elim
      · rename_i rr st1 heq
        simp only [Except.ok.injEq, Prod.mk.injEq, Option.some.injEq] at h
        obtain ⟨h1, h2⟩ := h
        subst h1
        subst h2
        exact ⟨ihf _ _ _ _ _ _ _ heq, getCache_set_same _ _ _ _ _⟩
      · exact (ok_none_ne_some h).elim

/-! ## C6: TypeScript fallback skips the prefix retry -/

/-- C6: when the importer is a TypeScript module and the requested file has an
extension a TypeScript compiler could have emitted, `tryResolveFile` returns
after the TypeScript source candidates — for any `tryPrefix` whatsoever, the
prefix retry is never reached: if the candidate loop yields nothing, the whole
call yields nothing. -/
theorem c6_ts_fallback_skips_prefix (e : Env) (n : Nat) (st st2 : St) (file post : Str)
    (opts : Opts) (ti tw : Bool) (tp : Option Str) (sp : Bool)
    (hts : opts.isFromTsImporter = true)
    (hout : isPossibleTsOutput file = true)
    (hread : isFileReadable e file = false)
    (hloop : tsLoop e n st (getPotentialTsSrcPaths file) post opts ti tw tp sp
      = .ok (none, st2)) :
    tryResolveFile e (n + 2) st file post opts ti tw tp sp = .ok (none, st2) := by
  have h2 : n + 2 = (n + 1) + 1 := rfl
  rw [h2]
  simp only [tryResolveFile, hread, Bool.false_eq_true, if_false]
  simp only [trfTail, hts, hout, Bool.and_self, if_true]
  exact hloop

/-- Environment for the C6 witness: the prefixed file exists, the requested
`.js` file and its TypeScript sources do not. -/
def c6Env : Env :=
  { files := [("/p/src/pre-util.js".data, "x".data), ("/p/src/other.ts".data, "y".data)] }

/-- Options for the C6 witness: a TypeScript importer. -/
def c6Opts : Opts := { root := "/p".data, isFromTsImporter := true }

/-- C6 witness: even though `tryPrefix` is set and the prefixed file is
readable (the prefix retry would have succeeded), the TypeScript-extension
branch returns nothing. -/
theorem c6_witness :
    isFileReadable c6Env "/p/src/pre-util.js".data = true ∧
    tryResolveFile c6Env 32 ⟨[], []⟩ "/p/src/util.js".data [] c6Opts true true
      (some "pre-".data) false = .ok (none, ⟨[], []⟩) :=
  ⟨rfl, c6_ts_fallback_skips_prefix c6Env 30 ⟨[], []⟩ ⟨[], []⟩ "/p/src/util.js".data []
    c6Opts true true (some "pre-".data) false rfl rfl rfl rfl⟩

/-! ## C7: memoization of entry and deep-import resolution -/

/-- C7: after a first successful `resolvePackageEntry` (respectively
`resolveDeepImport`), a second call for the same package, subpath key and
`targetWeb` returns the identical result string and the unchanged state — even
under an arbitrary replacement environment and options, which shows the answer
is served from the per-package resolved cache and nothing is recomputed from
the filesystem. -/
theorem c7_memoization :
    (∀ (e : Env) (n : Nat) (st : St) (id dir : Str) (data : Manifest) (tw : Bool)
      (opts : Opts) (r : Str) (st' : St),
      resolvePackageEntry e n st id dir data tw opts = .ok (r, st') →
      ∀ (e2 : Env) (m : Nat) (opts2 : Opts) (id2 : Str),
        resolvePackageEntry e2 (m + 1) st' id2 dir data tw opts2 = .ok (r, st')) ∧
    (∀ (e : Env) (n : Nat) (st : St) (id dir : Str) (data : Manifest) (tw : Bool)
      (opts : Opts) (r : Str) (st' : St),
      resolveDeepImport e n st id dir data tw opts = .ok (some r, st') →
      ∀ (e2 : Env) (m : Nat) (opts2 : Opts),
        resolveDeepImport e2 (m + 1) st' id dir data tw opts2 = .ok (some r, st')) := by
  constructor
  · intro e n st id dir data tw opts r st' h e2 m opts2 id2
    obtain ⟨hrne, hc⟩ := (m1_master e n).2.2.2.2.2.1 _ _ _ _ _ _ _ _ h
    simp only [resolvePackageEntry, hc]
    simp [List.isEmpty_eq_true, hrne]
  · intro e n st id dir data tw opts r st' h e2 m opts2
    obtain ⟨hrne, hc⟩ := (m1_master e n).2.2.2.2.2.2.2.2.2.1 _ _ _ _ _ _ _ _ h
    simp only [resolveDeepImport, hc]
    simp [List.isEmpty_eq_true, hrne]

/-- Environment for the C7 witness: package `baz` with a plain `main` entry,
and a second package directory probed via a deep import. -/
def c7Env : Env :=
  { files := [("/p/node_modules/baz/index.js".data, "x".data),
              ("/p/node_modules/baz/lib/a.js".data, "y".data)]
    dirs := ["/p/node_modules/baz".data, "/p/node_modules/baz/lib".data] }

/-- Manifest for the C7 witness. -/
def c7Data : Manifest := [("main".data, .jstr "index.js".data)]

/-- Options for the C7 witness. -/
def c7Opts : Opts := { root := "/p".data }

/-- C7 witness: the first calls resolve through the filesystem; the second
calls run on a completely empty environment with fuel 1 and still return the
same results, straight from the cache. -/
theorem c7_witness :
    resolvePackageEntry c7Env 30 ⟨[], []⟩ "baz".data "/p/node_modules/baz".data c7Data
        true c7Opts
      = .ok ("/p/node_modules/baz/index.js".data,
          ⟨[(("/p/node_modules/baz".data, ".".data, true),
             "/p/node_modules/baz/index.js".data)], []⟩) ∧
    resolvePackageEntry ({} : Env) 1
        ⟨[(("/p/node_modules/baz".data, ".".data, true),
           "/p/node_modules/baz/index.js".data)], []⟩
        "baz".data "/p/node_modules/baz".data c7Data true c7Opts
      = .ok ("/p/node_modules/baz/index.js".data,
          ⟨[(("/p/node_modules/baz".data, ".".data, true),
             "/p/node_modules/baz/index.js".data)], []⟩) ∧
    resolveDeepImport c7Env 30 ⟨[], []⟩ "./lib/a.js".data "/p/node_modules/baz".data c7Data
        true c7Opts
      = .ok (some "/p/node_modules/baz/lib/a.js".data,
          ⟨[(("/p/node_modules/baz".data, "./lib/a.js".data, true),
             "/p/node_modules/baz/lib/a.js".data)], []⟩) ∧
    resolveDeepImport ({} : Env) 1
        ⟨[(("/p/node_modules/baz".data, "./lib/a.js".data, true),
           "/p/node_modules/baz/lib/a.js".data)], []⟩
        "./lib/a.js".data "/p/node_modules/baz".data c7Data true c7Opts
      = .ok (some "/p/node_modules/baz/lib/a.js".data,
          ⟨[(("/p/node_modules/baz".data, "./lib/a.js".data, true),
             "/p/node_modules/baz/lib/a.js".data)], []⟩) :=
  ⟨rfl,
   c7_memoization.1 c7Env 30 ⟨[], []⟩ "baz".data "/p/node_modules/baz".data c7Data true
     c7Opts _ _ rfl ({} : Env) 0 c7Opts "baz".data,
   rfl,
   c7_memoization.2 c7Env 30 ⟨[], []⟩ "./lib/a.js".data "/p/node_modules/baz".data c7Data
     true c7Opts _ _ rfl ({} : Env) 0 c7Opts⟩

/-! ## C8: explicit /@fs/ paths -/

/-- C8 (amended): for a specifier that starts with `/@fs/`, does not match the
commonjs-proxy fast path, and is not claimed as an optimized-dep url, the
orchestrator with `asSrc` always answers with a concrete path string: the
probe result when the probe succeeds, the stripped path otherwise — never
`undefined`, even when the target file does not exist. -/
theorem c8_fs_concrete (e : Env) (n : Nat) (st st' : St) (id : Str)
    (base : Opts) (ssr0 : Bool) (scanOpt : Option Bool) (cir : Bool) (importer : Option Str)
    (hasrc : base.asSrc = true)
    (hfs : startsWith id fsPrefixStr = true)
    (hcj : containsSub id "?commonjs".data = false)
    (hurl : (match e.depsOptimizer with
             | some o => o.isOptimizedDepUrl id
             | none => false) = false)
    (r : Option Str)
    (hprobe : tryFsResolve e n st (fsPathFromId id)
      (mergedOpts e base importer scanOpt cir) true true = .ok (r, st')) :
    resolveId e (n + 1) st id importer ssr0 scanOpt cir base
      = .ok (some (.rstr (match r with
          | some res => if res.isEmpty then fsPathFromId id else res
          | none => fsPathFromId id)), st') := by
  obtain ⟨t, rfl⟩ : ∃ t, fsPrefixStr ++ t = id := List.isPrefixOf_iff_prefix.mp hfs
  have hsent : startsWith (fsPrefixStr ++ t) browserExternalStr = false := rfl
  have hch : (decide (fsPrefixStr ++ t = "commonjsHelpers.js".data)) = false := rfl
  have hasrc2 : (mergedOpts e base importer scanOpt cir).asSrc = true := hasrc
  simp only [resolveId, hsent, hcj, hch, hurl, hasrc2, hfs, Bool.false_eq_true, if_false,
    Bool.or_false, Bool.and_false, Bool.and_true, Bool.false_or, Bool.true_and, ite_true,
    ite_false]
  split
  · rename_i er heq
    exact absurd (hprobe.symm.trans heq) (fun hh => Except.noConfusion hh)
  · rename_i r2 st2 heq
    have h2 := hprobe.symm.trans heq
    simp only [Except.ok.injEq, Prod.mk.injEq] at h2
    obtain ⟨h3, h4⟩ := h2
    subst h3
    subst h4
    cases r <;> rfl

/-- C8 counterexample: a `/@fs/` specifier whose path contains `?commonjs`
hits the commonjs-proxy fast path first and the orchestrator returns
`undefined`, contradicting "always returns a concrete path" as universally
stated. -/
theorem c8_counterexample :
    startsWith "/@fs/a?commonjsx".data fsPrefixStr = true ∧
    resolveId ({} : Env) 30 ⟨[], []⟩ "/@fs/a?commonjsx".data none false none false
      { root := "/p".data, asSrc := true } = .ok (none, ⟨[], []⟩) := ⟨rfl, rfl⟩

/-- Options for the C8 witness. -/
def c8Base : Opts := { root := "/p".data, asSrc := true }

/-- C8 witness: the amended statement applied to a missing file — the probe
fails and the stripped path itself is returned. -/
theorem c8_witness :
    resolveId ({} : Env) 21 ⟨[], []⟩ "/@fs//p/missing.js".data none false none false c8Base
      = .ok (some (.rstr "/p/missing.js".data), ⟨[], []⟩) :=
  c8_fs_concrete ({} : Env) 20 ⟨[], []⟩ ⟨[], []⟩ "/@fs//p/missing.js".data c8Base
    false none false none rfl rfl rfl rfl none (by rfl)


/-! ## C9: node builtins in the bare-import tail -/

/-- Tail of the bare-import branch reaching the builtin handling: with no
importer, no optimizer and no `shouldExternalize`, once `tryNodeResolve`
yields nothing, a builtin id is externalized in ssr mode (fatal when
`ssr.noExternal === true`) and redirected to the browser-external sentinel in
client mode (bare in production, suffixed with `:<id>` in development). -/
theorem c9_bare_tail (e : Env) (n : Nat) (st st1 : St) (id : Str) (opts : Opts)
    (ssr0 targetWeb : Bool)
    (hse : opts.shouldExternalize = none)
    (hopt : e.depsOptimizer = none)
    (hbuiltin : memStr id e.builtins = true)
    (htnr : tryNodeResolve e (n + 1) st id none opts targetWeb ssr0 none
      = .ok (none, st1)) :
    resolveIdBare e (n + 1) st id none ssr0 targetWeb opts
      = if ssr0 then
          (if opts.ssrNoExternalTrue then .error (builtinErrMsg id none e.cwd, st1)
           else .ok (some (.rrec { id := id, external := true }), st1))
        else .ok (some (.rstr (if opts.isProduction then browserExternalStr
              else browserExternalStr ++ ':' :: id)), st1) := by
  have hbm : (if targetWeb = true then
      tryResolveBrowserMapping e (n + 1) st id none opts false none
      else .ok (none, st)) = (.ok (none, st) : Except Er (Option RRes × St)) := by
    split
    · simp [tryResolveBrowserMapping]
    · rfl
  simp only [resolveIdBare, hse, hopt, Option.isSome_none, Bool.and_false, Bool.false_and,
    Bool.false_eq_true, if_false, ite_false]
  simp only [orElseX]
  rw [hbm]
  simp only [orElseX]
  rw [htnr]
  simp only [orElseX, hbuiltin, ite_true]

/-- C9: for a bare specifier that is a node builtin and is not otherwise
resolved (the optimizer is absent, `tryNodeResolve` finds nothing, nothing
matched earlier), the orchestrator returns `{ id, external: true }` in ssr
mode, raises the fatal builtin error when `ssr.noExternal === true`, and in
client mode returns the bare browser-external sentinel in production and the
sentinel suffixed with `:<id>` in development. -/
theorem c9_builtin (e : Env) (n : Nat) (st st1 : St) (id : Str) (base : Opts)
    (ssr0 : Bool) (scanOpt : Option Bool) (cir : Bool)
    (hbare : bareImportTest id = true)
    (hsent : startsWith id browserExternalStr = false)
    (hcj : containsSub id "?commonjs".data = false)
    (hch : ¬ id = "commonjsHelpers.js".data)
    (hext : isExternalUrl id = false)
    (hdata : isDataUrl id = false)
    (hopt : e.depsOptimizer = none)
    (hpref : base.preferRelative = false)
    (hse : base.shouldExternalize = none)
    (hbuiltin : memStr id e.builtins = true)
    (htnr : tryNodeResolve e (n + 1) st id none (mergedOpts e base none scanOpt cir)
      (¬ ssr0 || base.ssrTargetWebworker) ssr0 none = .ok (none, st1)) :
    resolveId e (n + 2) st id none ssr0 scanOpt cir base
      = if ssr0 then
          (if base.ssrNoExternalTrue then .error (builtinErrMsg id none e.cwd, st1)
           else .ok (some (.rrec { id := id, external := true }), st1))
        else .ok (some (.rstr (if base.isProduction then browserExternalStr
              else browserExternalStr ++ ':' :: id)), st1) := by
  obtain ⟨c, t, rfl, hc⟩ : ∃ c t, id = c :: t ∧ (isWordChar c || c = '@') = true := by
    cases id with
    | nil => simp [bareImportTest] at hbare
    | cons c t =>
      refine ⟨c, t, rfl, ?_⟩
      unfold bareImportTest at hbare
      exact (Bool.and_eq_true _ _ |>.mp hbare).1
  have hcd : c ≠ '.' := by
    intro hh
    subst hh
    exact absurd hc (by decide)
  have hcs : c ≠ '/' := by
    intro hh
    subst hh
    exact absurd hc (by decide)
  have hdot : startsWith (c :: t) ".".data = false := by
    simp [startsWith, List.isPrefixOf]
    exact fun hh => hcd hh.symm
  have hslash : startsWith (c :: t) "/".data = false := by
    simp [startsWith, List.isPrefixOf]
    exact fun hh => hcs hh.symm
  have hfsp : startsWith (c :: t) fsPrefixStr = false := by
    simp [startsWith, fsPrefixStr, List.isPrefixOf]
    exact fun hh => absurd hh.symm hcs
  have habs : isAbsB (c :: t) = false := by
    simp [isAbsB]
    exact fun hh => hcs hh
  have hch2 : (decide ((c :: t) = "commonjsHelpers.js".data)) = false := decide_eq_false hch
  have hpref2 : (mergedOpts e base none scanOpt cir).preferRelative = false := hpref
  have hse2 : (mergedOpts e base none scanOpt cir).shouldExternalize = none := hse
  have hne1 : (if ssr0 then
          (if base.ssrNoExternalTrue then
            (.error (builtinErrMsg (c :: t) none e.cwd, st1) : Except Er (Option RRes × St))
           else .ok (some (.rrec { id := c :: t, external := true }), st1))
        else .ok (some (.rstr (if base.isProduction then browserExternalStr
              else browserExternalStr ++ ':' :: (c :: t))), st1))
      = if ssr0 then
          (if (mergedOpts e base none scanOpt cir).ssrNoExternalTrue then
            (.error (builtinErrMsg (c :: t) none e.cwd, st1) : Except Er (Option RRes × St))
           else .ok (some (.rrec { id := c :: t, external := true }), st1))
        else .ok (some (.rstr (if (mergedOpts e base none scanOpt cir).isProduction then
              browserExternalStr else browserExternalStr ++ ':' :: (c :: t))), st1) := rfl
  rw [hne1]
  simp only [resolveId, hsent, hcj, hch2, hopt, hfsp, hslash, hdot, habs, hext, hdata,
    hpref2, hbare, Bool.or_false, Bool.or_self, Bool.false_or, Bool.and_false,
    Bool.false_and, Bool.false_eq_true, if_false, ite_false, ite_true, orElseX]
  exact c9_bare_tail e n st st1 (c :: t) (mergedOpts e base none scanOpt cir) ssr0
    (¬ ssr0 || base.ssrTargetWebworker) hse2 hopt hbuiltin htnr


/-- Environment for the C9 witness: `fs` is a node builtin; nothing resolves. -/
def c9Env : Env := { builtins := ["fs".data] }

/-- Base options for the C9 witness. -/
def c9Base : Opts := { root := "/p".data }

/-- Base options for the C9 witness with `ssr.noExternal === true`. -/
def c9BaseNE : Opts := { root := "/p".data, ssrNoExternalTrue := true }

/-- C9 witness: specifier `fs`, no importer. In ssr mode the result is
`{ id: "fs", external: true }`; with `ssr.noExternal === true` a fatal error;
in client development mode the suffixed browser-external sentinel. -/
theorem c9_witness :
    resolveId c9Env 30 ⟨[], []⟩ "fs".data none true none false c9Base
      = .ok (some (.rrec { id := "fs".data, external := true }), ⟨[], []⟩) ∧
    resolveId c9Env 30 ⟨[], []⟩ "fs".data none true none false c9BaseNE
      = .error (builtinErrMsg "fs".data none c9Env.cwd, ⟨[], []⟩) ∧
    resolveId c9Env 30 ⟨[], []⟩ "fs".data none false none false c9Base
      = .ok (some (.rstr (browserExternalStr ++ ':' :: "fs".data)), ⟨[], []⟩) := by
  refine ⟨?_, ?_, ?_⟩
  · exact c9_builtin c9Env 28 ⟨[], []⟩ ⟨[], []⟩ "fs".data c9Base true none false rfl rfl
      rfl (by decide) rfl rfl rfl rfl rfl rfl (by rfl)
  · exact c9_builtin c9Env 28 ⟨[], []⟩ ⟨[], []⟩ "fs".data c9BaseNE true none false rfl rfl
      rfl (by decide) rfl rfl rfl rfl rfl rfl (by rfl)
  · exact c9_builtin c9Env 28 ⟨[], []⟩ ⟨[], []⟩ "fs".data c9Base false none false rfl rfl
      rfl (by decide) rfl rfl rfl rfl rfl rfl (by rfl)


/-! ## Path normalization lemmas towards the absolute-id invariant -/

theorem splitSlash_ne_nil : ∀ p : Str, splitSlash p ≠ [] := by
  intro p
  induction p with
  | nil => simp [splitSlash]
  | cons c t ih =>
    unfold splitSlash
    by_cases hc : c = '/'
    · simp [hc]
    · simp [hc]

theorem headI_mem_of_ne_nil {l : List Str} (h : l ≠ []) : l.headI ∈ l := by
  cases l with
  | nil => exact absurd rfl h
  | cons a t => exact List.mem_cons_self a t

theorem splitSlash_no_slash : ∀ (p : Str) (s : Str), s ∈ splitSlash p → '/' ∉ s := by
  intro p
  induction p with
  | nil =>
    intro s hs
    simp [splitSlash] at hs
    simp [hs]
  | cons c t ih =>
    intro s hs
    unfold splitSlash at hs
    by_cases hc : c = '/'
    · rw [if_pos hc] at hs
      rcases List.mem_cons.mp hs with rfl | hs
      · simp
      · exact ih s hs
    · rw [if_neg hc] at hs
      rcases List.mem_cons.mp hs with rfl | hs
      · intro hmem
        rcases List.mem_cons.mp hmem with hh | hh
        · exact hc hh.symm
        · exact ih (splitSlash t).headI (headI_mem_of_ne_nil (splitSlash_ne_nil t)) hh
      · exact ih s (List.mem_of_mem_tail hs)

theorem mem_splitSlash_subset : ∀ (p : Str) (s : Str), s ∈ splitSlash p →
    ∀ c ∈ s, c ∈ p := by
  intro p
  induction p with
  | nil =>
    intro s hs c hc
    simp [splitSlash] at hs
    subst hs
    simp at hc
  | cons a t ih =>
    intro s hs c hc
    unfold splitSlash at hs
    by_cases ha : a = '/'
    · rw [if_pos ha] at hs
      rcases List.mem_cons.mp hs with rfl | hs
      · simp at hc
      · exact List.mem_cons_of_mem a (ih s hs c hc)
    · rw [if_neg ha] at hs
      rcases List.mem_cons.mp hs with rfl | hs
      · rcases List.mem_cons.mp hc with rfl | hc
        · exact List.mem_cons_self c t
        · exact List.mem_cons_of_mem a
            (ih (splitSlash t).headI (headI_mem_of_ne_nil (splitSlash_ne_nil t)) c hc)
      · exact List.mem_cons_of_mem a (ih s (List.mem_of_mem_tail hs) c hc)

theorem mem_joinSlash : ∀ (l : List Str) (c : Char), c ∈ joinSlash l →
    (∃ s ∈ l, c ∈ s) ∨ c = '/' := by
  intro l
  induction l with
  | nil =>
    intro c hc
    simp [joinSlash] at hc
  | cons x r ih =>
    intro c hc
    cases r with
    | nil =>
      simp only [joinSlash] at hc
      exact Or.inl ⟨x, List.mem_cons_self x [], hc⟩
    | cons y rr =>
      simp only [joinSlash] at hc
      rcases List.mem_append.mp hc with hc | hc
      · exact Or.inl ⟨x, List.mem_cons_self x _, hc⟩
      · rcases List.mem_cons.mp hc with rfl | hc
        · exact Or.inr rfl
        · rcases ih c hc with ⟨s, hs, hcs⟩ | rfl
          · exact Or.inl ⟨s, List.mem_cons_of_mem x hs, hcs⟩
          · exact Or.inr rfl

/-- Segments neither empty nor `.` nor `..`. -/
def GoodSeg (s : Str) : Prop := s ≠ [] ∧ s ≠ ['.'] ∧ s ≠ ['.', '.']

theorem normAbsGo_subset : ∀ (l acc : List Str) (x : Str), x ∈ normAbsGo acc l →
    x ∈ acc ∨ x ∈ l := by
  intro l
  induction l with
  | nil =>
    intro acc x hx
    unfold normAbsGo at hx
    exact Or.inl (List.mem_reverse.mp hx)
  | cons s r ih =>
    intro acc x hx
    unfold normAbsGo at hx
    by_cases h1 : s = [] ∨ s = ['.']
    · rw [if_pos (by simpa using h1)] at hx
      rcases ih acc x hx with hx | hx
      · exact Or.inl hx
      · exact Or.inr (List.mem_cons_of_mem s hx)
    · rw [if_neg (by simpa using h1)] at hx
      by_cases h2 : s = ['.', '.']
      · rw [if_pos h2] at hx
        rcases ih acc.tail x hx with hx | hx
        · exact Or.inl (List.mem_of_mem_tail hx)
        · exact Or.inr (List.mem_cons_of_mem s hx)
      · rw [if_neg h2] at hx
        rcases ih (s :: acc) x hx with hx | hx
        · rcases List.mem_cons.mp hx with rfl | hx
          · exact Or.inr (List.mem_cons_self x r)
          · exact Or.inl hx
        · exact Or.inr (List.mem_cons_of_mem s hx)

theorem normAbsGo_good : ∀ (l acc : List Str),
    (∀ x ∈ acc, GoodSeg x) → (∀ x ∈ l, '/' ∉ x) →
    ∀ x ∈ normAbsGo acc l, GoodSeg x := by
  intro l
  induction l with
  | nil =>
    intro acc hacc _ x hx
    unfold normAbsGo at hx
    exact hacc x (List.mem_reverse.mp hx)
  | cons s r ih =>
    intro acc hacc hl x hx
    unfold normAbsGo at hx
    by_cases h1 : s = [] ∨ s = ['.']
    · rw [if_pos (by simpa using h1)] at hx
      exact ih acc hacc (fun y hy => hl y (List.mem_cons_of_mem s hy)) x hx
    · rw [if_neg (by simpa using h1)] at hx
      by_cases h2 : s = ['.', '.']
      · rw [if_pos h2] at hx
        exact ih acc.tail (fun y hy => hacc y (List.mem_of_mem_tail hy))
          (fun y hy => hl y (List.mem_cons_of_mem s hy)) x hx
      · rw [if_neg h2] at hx
        refine ih (s :: acc) ?_ (fun y hy => hl y (List.mem_cons_of_mem s hy)) x hx
        intro y hy
        rcases List.mem_cons.mp hy with rfl | hy
        · exact ⟨fun hh => h1 (Or.inl hh), fun hh => h1 (Or.inr hh), h2⟩
        · exact hacc y hy

theorem normAbsGo_of_good : ∀ (l acc : List Str), (∀ x ∈ l, GoodSeg x) →
    normAbsGo acc l = acc.reverse ++ l := by
  intro l
  induction l with
  | nil =>
    intro acc _
    simp [normAbsGo]
  | cons s r ih =>
    intro acc hl
    have hs := hl s (List.mem_cons_self s r)
    unfold normAbsGo
    rw [if_neg (by simpa using ⟨hs.1, hs.2.1⟩), if_neg hs.2.2]
    rw [ih (s :: acc) (fun y hy => hl y (List.mem_cons_of_mem s hy))]
    simp

theorem splitSlash_single : ∀ x : Str, '/' ∉ x → splitSlash x = [x] := by
  intro x
  induction x with
  | nil => intro _; rfl
  | cons c t ih =>
    intro hx
    unfold splitSlash
    rw [if_neg (fun hh => hx (by rw [hh]; exact List.mem_cons_self _ _))]
    rw [ih (fun hh => hx (List.mem_cons_of_mem c hh))]
    rfl

theorem splitSlash_append_slash : ∀ (x z : Str), '/' ∉ x →
    splitSlash (x ++ '/' :: z) = x :: splitSlash z := by
  intro x
  induction x with
  | nil =>
    intro z _
    simp [splitSlash]
  | cons c t ih =>
    intro z hx
    have hc : ¬ c = '/' := fun hh => hx (by rw [hh]; exact List.mem_cons_self _ _)
    rw [List.cons_append]
    conv_lhs => rw [splitSlash]
    rw [if_neg hc, ih z (fun hh => hx (List.mem_cons_of_mem c hh))]
    simp

theorem splitSlash_joinSlash : ∀ segs : List Str, (∀ x ∈ segs, '/' ∉ x) →
    segs ≠ [] → splitSlash (joinSlash segs) = segs := by
  intro segs
  induction segs with
  | nil => intro _ h; exact absurd rfl h
  | cons x r ih =>
    intro hseg _
    cases r with
    | nil =>
      simp only [joinSlash]
      exact splitSlash_single x (hseg x (List.mem_cons_self x []))
    | cons y rr =>
      simp only [joinSlash]
      rw [splitSlash_append_slash x _ (hseg x (List.mem_cons_self x _))]
      rw [ih (fun z hz => hseg z (List.mem_cons_of_mem x hz)) (by simp)]

theorem posixNormalize_abs (p : Str) (hp : isAbsB p = true) :
    isAbsB (posixNormalize p) = true := by
  have hne : ¬ p = [] := by
    intro hh
    rw [hh] at hp
    simp [isAbsB] at hp
  unfold posixNormalize
  rw [if_neg hne, if_pos hp]
  rfl

theorem posixNormalize_idem_abs (p : Str) (hp : isAbsB p = true) :
    posixNormalize (posixNormalize p) = posixNormalize p := by
  have hne : ¬ p = [] := by
    intro hh
    rw [hh] at hp
    simp [isAbsB] at hp
  have hgood : ∀ x ∈ normAbsGo [] (splitSlash p), GoodSeg x :=
    normAbsGo_good (splitSlash p) [] (by simp) (splitSlash_no_slash p)
  have hnosl : ∀ x ∈ normAbsGo [] (splitSlash p), '/' ∉ x := by
    intro x hx
    rcases normAbsGo_subset (splitSlash p) [] x hx with hx2 | hx2
    · simp at hx2
    · exact splitSlash_no_slash p x hx2
  have hval : posixNormalize p = '/' :: joinSlash (normAbsGo [] (splitSlash p)) := by
    unfold posixNormalize
    rw [if_neg hne, if_pos hp]
  rw [hval]
  cases hsegs : normAbsGo [] (splitSlash p) with
  | nil => decide
  | cons x r =>
    have h1 : splitSlash ('/' :: joinSlash (x :: r)) = [] :: x :: r := by
      have h2 : splitSlash ('/' :: joinSlash (x :: r))
          = [] :: splitSlash (joinSlash (x :: r)) := by
        conv_lhs => rw [splitSlash]
        rw [if_pos rfl]
      rw [h2, splitSlash_joinSlash (x :: r)
        (fun y hy => hnosl y (by rw [hsegs]; exact hy)) (by simp)]
    have h3 : posixNormalize ('/' :: joinSlash (x :: r))
        = '/' :: joinSlash (normAbsGo [] ([] :: x :: r)) := by
      unfold posixNormalize
      rw [if_neg (by simp), if_pos (by rfl), h1]
    rw [h3]
    have h4 : normAbsGo [] ([] :: x :: r) = normAbsGo [] (x :: r) := by
      conv_lhs => rw [normAbsGo]
      rw [if_pos (by simp)]
    rw [h4, normAbsGo_of_good (x :: r) [] (fun y hy => hgood y (by rw [hsegs]; exact hy))]
    simp

theorem normRelGo_subset : ∀ (l acc : List Str) (x : Str), x ∈ normRelGo acc l →
    x ∈ acc ∨ x ∈ l := by
  intro l
  induction l with
  | nil =>
    intro acc x hx
    unfold normRelGo at hx
    exact Or.inl (List.mem_reverse.mp hx)
  | cons s r ih =>
    intro acc x hx
    unfold normRelGo at hx
    by_cases h1 : s = [] ∨ s = ['.']
    · rw [if_pos (by simpa using h1)] at hx
      rcases ih acc x hx with hx | hx
      · exact Or.inl hx
      · exact Or.inr (List.mem_cons_of_mem s hx)
    · rw [if_neg (by simpa using h1)] at hx
      by_cases h2 : s = ['.', '.']
      · rw [if_pos h2] at hx
        cases acc with
        | nil =>
          rcases ih [s] x hx with hx | hx
          · simp at hx
            subst hx
            exact Or.inr (List.mem_cons_self _ r)
          · exact Or.inr (List.mem_cons_of_mem s hx)
        | cons u rest =>
          dsimp only at hx
          by_cases h3 : u = ['.', '.']
          · rw [if_pos h3] at hx
            rcases ih (s :: u :: rest) x hx with hx | hx
            · rcases List.mem_cons.mp hx with rfl | hx
              · exact Or.inr (List.mem_cons_self x r)
              · exact Or.inl hx
            · exact Or.inr (List.mem_cons_of_mem s hx)
          · rw [if_neg h3] at hx
            rcases ih rest x hx with hx | hx
            · exact Or.inl (List.mem_cons_of_mem u hx)
            · exact Or.inr (List.mem_cons_of_mem s hx)
      · rw [if_neg h2] at hx
        rcases ih (s :: acc) x hx with hx | hx
        · rcases List.mem_cons.mp hx with rfl | hx
          · exact Or.inr (List.mem_cons_self x r)
          · exact Or.inl hx
        · exact Or.inr (List.mem_cons_of_mem s hx)

theorem mem_posixNormalize (p : Str) (c : Char) (hc : c ∈ posixNormalize p) :
    c ∈ p ∨ c = '/' ∨ c = '.' := by
  unfold posixNormalize at hc
  by_cases hne : p = []
  · rw [if_pos hne] at hc
    simp at hc
    exact Or.inr (Or.inr hc)
  · rw [if_neg hne] at hc
    by_cases habs : isAbsB p = true
    · rw [if_pos habs] at hc
      rcases List.mem_cons.mp hc with rfl | hc
      · exact Or.inr (Or.inl rfl)
      · rcases mem_joinSlash _ c hc with ⟨s, hs, hcs⟩ | rfl
        · rcases normAbsGo_subset (splitSlash p) [] s hs with hs2 | hs2
          · simp at hs2
          · exact Or.inl (mem_splitSlash_subset p s hs2 c hcs)
        · exact Or.inr (Or.inl rfl)
    · rw [if_neg habs] at hc
      by_cases hrel : normRelGo [] (splitSlash p) = []
      · rw [if_pos hrel] at hc
        simp at hc
        exact Or.inr (Or.inr hc)
      · rw [if_neg hrel] at hc
        rcases mem_joinSlash _ c hc with ⟨s, hs, hcs⟩ | rfl
        · rcases normRelGo_subset (splitSlash p) [] s hs with hs2 | hs2
          · simp at hs2
          · exact Or.inl (mem_splitSlash_subset p s hs2 c hcs)
        · exact Or.inr (Or.inl rfl)

theorem cleanB_posixNormalize (p : Str) (hp : cleanB p = true) :
    cleanB (posixNormalize p) = true := by
  rw [cleanB, List.all_eq_true]
  intro c hc
  rcases mem_posixNormalize p c hc with hc2 | rfl | rfl
  · rw [cleanB, List.all_eq_true] at hp
    exact hp c hc2
  · decide
  · decide

/-! ## The good-id invariant -/

/-- A result id is good when it is the browser-external sentinel (possibly
with a suffix) or an absolute, clean, normalized path followed by an optional
`?`/`#` postfix. -/
def GoodId (s : Str) : Prop :=
  startsWith s browserExternalStr = true ∨
  ∃ f p, s = f ++ p ∧ isAbsB f = true ∧ cleanB f = true ∧ posixNormalize f = f ∧ postOk p

theorem takeWhile_append_all {pred : Char → Bool} : ∀ (l1 l2 : Str), l1.all pred = true →
    (l1 ++ l2).takeWhile pred = l1 ++ l2.takeWhile pred := by
  intro l1
  induction l1 with
  | nil => intro l2 _; simp
  | cons c t ih =>
    intro l2 h
    rw [List.all_cons, Bool.and_eq_true] at h
    simp only [List.cons_append, List.takeWhile_cons, h.1, if_true]
    rw [ih l2 h.2]

theorem fileOf_postOk {p : Str} (hp : postOk p) : fileOf p = [] := by
  rcases hp with rfl | hh | hh
  · rfl
  · cases p with
    | nil => rfl
    | cons c t =>
      simp only [List.head?_cons, Option.some.injEq] at hh
      subst hh
      rfl
  · cases p with
    | nil => rfl
    | cons c t =>
      simp only [List.head?_cons, Option.some.injEq] at hh
      subst hh
      rfl

theorem fileOf_append_postOk {f p : Str} (hf : cleanB f = true) (hp : postOk p) :
    fileOf (f ++ p) = f := by
  unfold fileOf
  rw [takeWhile_append_all f p hf]
  rw [show p.takeWhile notQH = fileOf p from rfl, fileOf_postOk hp]
  simp

theorem startsWith_append {s pre p : Str} (h : startsWith s pre = true) :
    startsWith (s ++ p) pre = true := by
  rw [startsWith, List.isPrefixOf_iff_prefix] at h ⊢
  exact h.trans (List.prefix_append s p)

theorem postOk_append {p q : Str} (hp : postOk p) (hq : postOk q) : postOk (p ++ q) := by
  rcases hp with rfl | hh | hh
  · simpa using hq
  · cases p with
    | nil => simpa using hq
    | cons c t => exact Or.inr (Or.inl (by simpa using hh))
  · cases p with
    | nil => simpa using hq
    | cons c t => exact Or.inr (Or.inr (by simpa using hh))

theorem goodId_append_post {r p : Str} (hr : GoodId r) (hp : postOk p) : GoodId (r ++ p) := by
  rcases hr with hr | ⟨f, p1, rfl, h1, h2, h3, h4⟩
  · exact Or.inl (startsWith_append hr)
  · refine Or.inr ⟨f, p1 ++ p, by simp, h1, h2, h3, postOk_append h4 hp⟩

theorem goodId_sentinel : GoodId browserExternalStr :=
  Or.inl (by decide)

theorem isAbsB_append {x : Str} (y : Str) (hx : isAbsB x = true) :
    isAbsB (x ++ y) = true := by
  cases x with
  | nil => simp [isAbsB] at hx
  | cons c t => simpa [isAbsB] using hx

theorem isAbsB_ne_sentinel {f : Str} (hf : isAbsB f = true) : ¬ browserExternalStr = f := by
  intro hh
  rw [← hh] at hf
  exact absurd hf (by decide)

theorem getRealPath_goodId (e : Env) (file : Str) (ps : Bool)
    (hra : isAbsB (e.realp file) = true) (hrc : cleanB (e.realp file) = true)
    (hrn : posixNormalize (e.realp file) = e.realp file)
    (habs : isAbsB file = true) (hclean : cleanB file = true) :
    GoodId (getRealPath e file ps) := by
  unfold getRealPath
  cases ps with
  | false =>
    rw [if_pos ⟨by simp, isAbsB_ne_sentinel habs⟩]
    rw [hrn]
    exact Or.inr ⟨e.realp file, [], by simp, hra, hrc, hrn, Or.inl rfl⟩
  | true =>
    rw [if_neg (by simp)]
    exact Or.inr ⟨posixNormalize file, [], by simp, posixNormalize_abs file habs,
      cleanB_posixNormalize file hclean, posixNormalize_idem_abs file habs, Or.inl rfl⟩

theorem goodId_injectQuery {r : Str} (q : Str) (hr : GoodId r) : GoodId (injectQuery r q) := by
  unfold injectQuery
  rcases hr with hr | ⟨f, p1, rfl, h1, h2, h3, h4⟩
  · rw [startsWith, List.isPrefixOf_iff_prefix] at hr
    obtain ⟨rest, rfl⟩ := hr
    have hfo : fileOf (browserExternalStr ++ rest) = browserExternalStr ++ fileOf rest := by
      unfold fileOf
      exact takeWhile_append_all _ _ (by decide)
    rw [hfo]
    refine Or.inl ?_
    rw [List.append_assoc]
    rw [startsWith, List.isPrefixOf_iff_prefix]
    exact List.prefix_append _ _
  · have hfo : fileOf (f ++ p1) = f := fileOf_append_postOk h2 h4
    rw [hfo]
    exact Or.inr ⟨f, ('?' :: q) ++ injectQueryRest ((f ++ p1).drop f.length), rfl,
      h1, h2, h3, Or.inr (Or.inl rfl)⟩

theorem take_abs {p : Str} {i : Nat} (hp : isAbsB p = true) (hi : 0 < i) :
    isAbsB (p.take i) = true := by
  cases p with
  | nil => simp [isAbsB] at hp
  | cons c t =>
    cases i with
    | zero => exact absurd hi (by simp)
    | succ j => simpa [isAbsB, List.take_cons] using hp

theorem pathJoin_abs {a : Str} (b : Str) (ha : isAbsB a = true) :
    isAbsB (pathJoin a b) = true := by
  unfold pathJoin
  have hane : ¬ a = [] := by
    intro hh
    rw [hh] at ha
    simp [isAbsB] at ha
  rw [if_neg hane]
  by_cases hb : b = []
  · rw [if_pos hb]
    exact posixNormalize_abs a ha
  · rw [if_neg hb]
    exact posixNormalize_abs _ (isAbsB_append _ ha)

theorem pathResolve_abs {base : Str} (id : Str) (hb : isAbsB base = true) :
    isAbsB (pathResolve base id) = true := by
  unfold pathResolve
  by_cases hid : isAbsB id = true
  · rw [if_pos hid]
    exact posixNormalize_abs id hid
  · rw [if_neg hid]
    exact pathJoin_abs id hb

theorem charIdx_some_of_mem {c : Char} : ∀ {l : Str}, c ∈ l → ∃ i, charIdx l c = some i := by
  intro l
  induction l with
  | nil => intro h; simp at h
  | cons a t ih =>
    intro h
    by_cases hac : a = c
    · exact ⟨0, by simp [charIdx, hac]⟩
    · rcases List.mem_cons.mp h with hh | hh
      · exact absurd hh.symm hac
      · obtain ⟨i, hi⟩ := ih hh
        exact ⟨i + 1, by simp [charIdx, hac, hi]⟩

theorem pathDirname_abs {p : Str} (hp : isAbsB p = true) :
    isAbsB (pathDirname p) = true := by
  have hmem : '/' ∈ p := by
    cases p with
    | nil => simp [isAbsB] at hp
    | cons c t =>
      simp only [isAbsB, List.head?_cons] at hp
      have : c = '/' := by simpa using hp
      subst this
      exact List.mem_cons_self _ _
  obtain ⟨i, hi⟩ := charIdx_some_of_mem (List.mem_reverse.mpr hmem)
  unfold pathDirname lastIdxOf
  rw [hi]
  rw [show Option.map (fun j => p.length - 1 - j) (some i) = some (p.length - 1 - i) from rfl]
  cases hpl : p.length - 1 - i with
  | zero =>
    show isAbsB ['/'] = true
    decide
  | succ j =>
    show isAbsB (p.take (j + 1)) = true
    exact take_abs hp (j.succ_pos)

theorem splitFileAndPost_abs {p : Str} (hp : isAbsB p = true) :
    isAbsB (splitFileAndPost p).1 = true := by
  unfold splitFileAndPost
  cases hq : (match charIdx p '?' with
    | some i => some i
    | none => charIdx p '#') with
  | none => simpa
  | some i =>
    by_cases hi : 0 < i
    · simpa [hi] using take_abs hp hi
    · simpa [hi]

theorem fsPathFromId_abs (id : Str) : isAbsB (fsPathFromId id) = true := by
  unfold fsPathFromId
  by_cases h : isAbsB (id.drop fsPrefixStr.length) = true
  · rwa [if_pos h]
  · rw [if_neg h]
    rfl

theorem tsSrc_abs {f : Str} (hf : isAbsB f = true) :
    ∀ x ∈ getPotentialTsSrcPaths f, isAbsB x = true := by
  intro x hx
  have habs : ∀ (sfx nsfx : Str), isAbsB sfx = false → endsWith f sfx = true →
      x = f.take (f.length - sfx.length) ++ nsfx → isAbsB x = true := by
    intro sfx nsfx hsfx hend hx2
    rw [endsWith, List.isSuffixOf_iff_suffix] at hend
    obtain ⟨pre, hpre⟩ := hend
    subst hx2
    rw [← hpre]
    have hlen : (pre ++ sfx).length - sfx.length = pre.length := by
      simp
    rw [hlen, List.take_left]
    cases pre with
    | nil =>
      rw [← hpre] at hf
      simp at hf
      rw [hf] at hsfx
      simp at hsfx
    | cons c t =>
      rw [← hpre] at hf
      simpa [isAbsB] using hf
  unfold getPotentialTsSrcPaths at hx
  by_cases h1 : endsWith f ".jsx".data = true
  · rw [if_pos h1] at hx
    simp at hx
    exact habs ".jsx".data ".tsx".data (by decide) h1 (by simpa using hx)
  · rw [if_neg h1] at hx
    by_cases h2 : endsWith f ".mjs".data = true
    · rw [if_pos h2] at hx
      simp at hx
      exact habs ".mjs".data ".mts".data (by decide) h2 (by simpa using hx)
    · rw [if_neg h2] at hx
      by_cases h3 : endsWith f ".cjs".data = true
      · rw [if_pos h3] at hx
        simp at hx
        exact habs ".cjs".data ".cts".data (by decide) h3 (by simpa using hx)
      · rw [if_neg h3] at hx
        by_cases h4 : endsWith f ".js".data = true
        · rw [if_pos h4] at hx
          simp at hx
          rcases hx with hx | hx
          · exact habs ".js".data ".ts".data (by decide) h4 (by simpa using hx)
          · exact habs ".js".data ".tsx".data (by decide) h4 (by simpa using hx)
        · rw [if_neg h4] at hx
          simp at hx

/-! ## Environment and state invariants for the id-shape theorem -/

/-- Well-formedness of the modelled external world: every file and directory
path is absolute and free of `?`/`#`, `realpathSync` returns absolute clean
paths, and optimized-dep ids handed out by the optimizer are themselves good
ids. -/
def EnvOK (e : Env) : Prop :=
  (∀ f v, alookup e.files f = some v → isAbsB f = true ∧ cleanB f = true) ∧
  (∀ d, memStr d e.dirs = true → isAbsB d = true ∧ cleanB d = true) ∧
  (∀ f, isAbsB (e.realp f) = true ∧ cleanB (e.realp f) = true) ∧
  (∀ opt, e.depsOptimizer = some opt → ∀ d, GoodId (opt.getOptimizedDepId d))

/-- Well-formedness of the resolver state: every memoized resolution is a good
id. -/
def StOK (st : St) : Prop :=
  ∀ k v, clookup st.resolvedCache k = some v → GoodId v

/-- Goodness of an optional resolved string. -/
def GResO : Option Str → Prop
  | some r => GoodId r
  | none => True

/-- Goodness of a probing result: good value and good state, also after a
throw. -/
def GRes : FsRes → Prop
  | .ok (o, st') => GResO o ∧ StOK st'
  | .error er => StOK er.2

/-- Goodness of a `resolvePackageEntry` result. -/
def GResS : Except Er (Str × St) → Prop
  | .ok (r, st') => GoodId r ∧ StOK st'
  | .error er => StOK er.2

/-- State-goodness alone (for steps whose value is an entry-point name, not a
resolved path). -/
def StOnly {α : Type} : Except Er (α × St) → Prop
  | .ok p => StOK p.2
  | .error er => StOK er.2

/-- A structured record is good when it is marked external or its id is a good
id. -/
def GRec (r : RRecord) : Prop := r.external = true ∨ GoodId r.id

/-- Goodness of an optional record. -/
def GRecO : Option RRecord → Prop
  | some r => GRec r
  | none => True

/-- Goodness of a `tryNodeResolve` result. -/
def GResR : Except Er (Option RRecord × St) → Prop
  | .ok (o, st') => GRecO o ∧ StOK st'
  | .error er => StOK er.2

/-- Goodness of an orchestrator value: only structured records are
constrained. -/
def GRR : RRes → Prop
  | .rrec r => GRec r
  | _ => True

/-- Goodness of an optional orchestrator value. -/
def GRROpt : Option RRes → Prop
  | some x => GRR x
  | none => True

/-- Goodness of an orchestrator result. -/
def GResRR : Except Er (Option RRes × St) → Prop
  | .ok (o, st') => GRROpt o ∧ StOK st'
  | .error er => StOK er.2

theorem StOK_setCache {st : St} (hst : StOK st) (d k : Str) (tw : Bool) {v : Str}
    (hv : GoodId v) : StOK (setCache st d k tw v) := by
  intro q w h
  simp only [setCache, clookup] at h
  split at h
  · exact (Option.some.inj h) ▸ hv
  · exact hst q w h

theorem StOK_getCache {st : St} (hst : StOK st) {d k : Str} {tw : Bool} {c : Str}
    (h : getCache st d k tw = some c) : GoodId c :=
  hst _ _ h

theorem readable_good {e : Env} (he : EnvOK e) {f : Str}
    (h : isFileReadable e f = true) : isAbsB f = true ∧ cleanB f = true := by
  unfold isFileReadable at h
  rw [Bool.or_eq_true] at h
  rcases h with h | h
  · rw [Option.isSome_iff_exists] at h
    obtain ⟨v, hv⟩ := h
    exact he.1 f v hv
  · exact he.2.1 f h

theorem getRealPath_goodId2 (e : Env) (file : Str) (ps : Bool)
    (hra : isAbsB (e.realp file) = true) (hrc : cleanB (e.realp file) = true)
    (habs : isAbsB file = true) (hclean : cleanB file = true) :
    GoodId (getRealPath e file ps) := by
  unfold getRealPath
  cases ps with
  | false =>
    rw [if_pos ⟨by simp, isAbsB_ne_sentinel habs⟩]
    exact Or.inr ⟨posixNormalize (e.realp file), [], by simp, posixNormalize_abs _ hra,
      cleanB_posixNormalize _ hrc, posixNormalize_idem_abs _ hra, Or.inl rfl⟩
  | true =>
    rw [if_neg (by simp)]
    exact Or.inr ⟨posixNormalize file, [], by simp, posixNormalize_abs _ habs,
      cleanB_posixNormalize _ hclean, posixNormalize_idem_abs _ habs, Or.inl rfl⟩

theorem GRes_orElseX {x : FsRes} {k : St → FsRes} (hx : GRes x)
    (hk : ∀ st1, StOK st1 → GRes (k st1)) : GRes (orElseX x k) := by
  cases x with
  | error er => exact hx
  | ok p =>
    obtain ⟨o, st1⟩ := p
    cases o with
    | some v => exact hx
    | none => exact hk st1 hx.2

theorem GResRR_orElseX {x : Except Er (Option RRes × St)}
    {k : St → Except Er (Option RRes × St)} (hx : GResRR x)
    (hk : ∀ st1, StOK st1 → GResRR (k st1)) : GResRR (orElseX x k) := by
  cases x with
  | error er => exact hx
  | ok p =>
    obtain ⟨o, st1⟩ := p
    cases o with
    | some v => exact hx
    | none => exact hk st1 hx.2

theorem GResO_getD {o : Option Str} (h : GResO o) (ht : truthyS o = true) :
    GoodId (o.getD []) := by
  cases o with
  | none => simp [truthyS] at ht
  | some v => exact h

theorem GRes_transport {x y : FsRes} (h : GRes x) (heq : x = y) : GRes y := heq ▸ h

theorem GResS_transport {x y : Except Er (Str × St)} (h : GResS x) (heq : x = y) :
    GResS y := heq ▸ h

theorem GResR_transport {x y : Except Er (Option RRecord × St)} (h : GResR x)
    (heq : x = y) : GResR y := heq ▸ h

theorem GResRR_transport {x y : Except Er (Option RRes × St)} (h : GResRR x)
    (heq : x = y) : GResRR y := heq ▸ h

theorem processResultTNR_good {ext : Option Bool} {origId : Str} {dI hE : Bool}
    {rec0 : RRecord} (h0 : GRec rec0) :
    GRecO (processResultTNR ext origId dI hE rec0) := by
  unfold processResultTNR
  split
  · exact h0
  · dsimp only
    split
    · trivial
    · exact Or.inl rfl

theorem tnrFinish_good {e : Env} (he : EnvOK e) {st : St} (hst : StOK st)
    (id : Str) (importer : Option Str) (opts : Opts) (tw ssr0 : Bool)
    (ext : Option Bool) (pkgId nestedPath : Str) (isDeep : Bool)
    (dir : Str) (data : Manifest) {resolved : Str} (hres : GoodId resolved) :
    GResR (.ok (tnrFinish e st id importer opts tw ssr0 ext pkgId nestedPath
      isDeep dir data resolved)) := by
  unfold tnrFinish
  split
  · exact ⟨processResultTNR_good (Or.inr hres), hst⟩
  · split
    · exact ⟨Or.inr hres, hst⟩
    · split
      · exact ⟨Or.inr hres, hst⟩
      · rename_i opt heq
        have hopt := he.2.2.2 opt heq
        repeat' split
        all_goals refine ⟨Or.inr ?_, hst⟩
        all_goals dsimp only
        all_goals repeat' split
        all_goals first
          | exact goodId_injectQuery _ hres
          | exact hopt _
          | exact hres

/-- Master id-shape lemma for the mutual probing functions: starting from a
good state, every resolved value is a good id and every reachable state (also
the one carried by a throw) stays good. -/
theorem m2_master (e : Env) (he : EnvOK e) : ∀ n : Nat,
    (∀ st file post opts ti tw tp sp, StOK st → postOk post →
      GRes (tryResolveFile e n st file post opts ti tw tp sp)) ∧
    (∀ st file post opts ti tw tp sp, StOK st → postOk post →
      GRes (trfTail e n st file post opts ti tw tp sp)) ∧
    (∀ st cands post opts ti tw tp sp, StOK st → postOk post →
      GRes (tsLoop e n st cands post opts ti tw tp sp)) ∧
    (∀ st fsPath opts ti tw, StOK st →
      GRes (tryFsResolve e n st fsPath opts ti tw)) ∧
    (∀ st exts fsPath file post opts tw, StOK st → postOk post →
      GRes (extLoop e n st exts fsPath file post opts tw)) ∧
    (∀ st id dir data tw opts, StOK st →
      GResS (resolvePackageEntry e n st id dir data tw opts)) ∧
    (∀ st id dir data tw opts, StOK st →
      GResS (rpeBody e n st id dir data tw opts)) ∧
    (∀ st dir data tw opts, StOK st →
      GRes (rpeInner e n st dir data tw opts)) ∧
    (∀ st ep0 dir data tw opts, StOK st →
      StOnly (rpeBrowser e n st ep0 dir data tw opts)) ∧
    (∀ st entries dir data tw opts, StOK st →
      GRes (entryLoop e n st entries dir data tw opts)) ∧
    (∀ st id dir data tw opts, StOK st →
      GRes (resolveDeepImport e n st id dir data tw opts)) ∧
    (∀ st id dir data tw opts, StOK st →
      GRes (rdiBody e n st id dir data tw opts)) ∧
    (∀ st rid id dir data tw opts hx, StOK st →
      GRes (rdiFinish e n st rid id dir data tw opts hx)) ∧
    (∀ st id importer opts tw ssr ext, StOK st →
      GResR (tryNodeResolve e n st id importer opts tw ssr ext)) ∧
    (∀ st id importer opts tw ssr ext pkgId nestedPath isDeep unresolvedId dir data,
      StOK st →
      GResR (tnrRetry e n st id importer opts tw ssr ext pkgId nestedPath isDeep
        unresolvedId dir data)) := by
  intro n
  induction n with
  | zero =>
    exact ⟨fun st _ _ _ _ _ _ _ hst _ => hst,
           fun st _ _ _ _ _ _ _ hst _ => hst,
           fun st _ _ _ _ _ _ _ hst _ => hst,
           fun st _ _ _ _ hst => hst,
           fun st _ _ _ _ _ _ hst _ => hst,
           fun st _ _ _ _ _ hst => hst,
           fun st _ _ _ _ _ hst => hst,
           fun st _ _ _ _ hst => hst,
           fun st _ _ _ _ _ hst => hst,
           fun st _ _ _ _ _ hst => hst,
           fun st _ _ _ _ _ hst => hst,
           fun st _ _ _ _ _ hst => hst,
           fun st _ _ _ _ _ _ _ hst => hst,
           fun st _ _ _ _ _ _ hst => hst,
           fun st _ _ _ _ _ _ _ _ _ _ _ _ hst => hst⟩
  | succ n ih =>
    obtain ⟨iht, ihtt, ihts, ihf, ihe, ihp, ihpb, ihpi, ihbr, ihel, ihd, ihdb, ihdf,
      ihn, ihr⟩ := ih
    refine ⟨?_, ?_, ?_, ?_, ?_, ?_, ?_, ?_, ?_, ?_, ?_, ?_, ?_, ?_, ?_⟩
    · -- T1 tryResolveFile
      intro st file post opts ti tw tp sp hst hpost
      simp only [tryResolveFile]
      split
      · rename_i hread
        split
        · refine ⟨goodId_append_post ?_ hpost, hst⟩
          exact getRealPath_goodId2 e file opts.preserveSymlinks
            (he.2.2.1 file).1 (he.2.2.1 file).2
            (readable_good he hread).1 (readable_good he hread).2
        · split
          · split
            · have hf := ihf st (file ++ "/index".data) opts true true hst
              split
              · rename_i er heq
                rw [heq] at hf
                exact hf
              · rename_i idx st1 heq
                rw [heq] at hf
                exact ⟨goodId_append_post hf.1 hpost, hf.2⟩
              · rename_i st1 heq
                rw [heq] at hf
                exact ihtt st1 file post opts ti tw tp sp hf.2 hpost
            · split
              · rename_i data heq
                have hp := ihp st file file data tw opts hst
                split
                · rename_i r st1 heq2
                  rw [heq2] at hp
                  exact ⟨hp.1, hp.2⟩
                · rename_i er heq2
                  rw [heq2] at hp
                  exact hp
              · have hf := ihf st (file ++ "/index".data) opts true true hst
                split
                · rename_i er heq
                  rw [heq] at hf
                  exact hf
                · rename_i idx st1 heq
                  rw [heq] at hf
                  exact ⟨goodId_append_post hf.1 hpost, hf.2⟩
                · rename_i st1 heq
                  rw [heq] at hf
                  exact ihtt st1 file post opts ti tw tp sp hf.2 hpost
          · exact ihtt st file post opts ti tw tp sp hst hpost
      · exact ihtt st file post opts ti tw tp sp hst hpost
    · -- T2 trfTail
      intro st file post opts ti tw tp sp hst hpost
      simp only [trfTail]
      split
      · exact ihts st (getPotentialTsSrcPaths file) post opts ti tw tp sp hst hpost
      · split
        · rename_i pre
          exact iht st _ post opts ti tw none false hst hpost
        · exact ⟨trivial, hst⟩
    · -- T3 tsLoop
      intro st cands post opts ti tw tp sp hst hpost
      simp only [tsLoop]
      split
      · exact ⟨trivial, hst⟩
      · rename_i src rest
        have hf := iht st src post opts ti tw tp sp hst hpost
        split
        · rename_i er heq
          rw [heq] at hf
          exact hf
        · rename_i r st1 heq
          rw [heq] at hf
          exact hf
        · rename_i st1 heq
          rw [heq] at hf
          exact ihts st1 rest post opts ti tw tp sp hf.2 hpost
    · -- T4 tryFsResolve
      intro st fsPath opts ti tw hst
      simp only [tryFsResolve]
      refine GRes_orElseX ?_ fun st1 hst1 => GRes_orElseX ?_ fun st2 hst2 =>
        GRes_orElseX ?_ fun st3 hst3 => GRes_orElseX ?_ fun st4 hst4 => ?_
      · split
        · exact ⟨trivial, hst⟩
        · exact iht st fsPath [] opts false tw opts.tryPfx opts.skipPackageJson hst
            (Or.inl rfl)
      · exact iht st1 _ _ opts false tw opts.tryPfx opts.skipPackageJson hst1
          (splitFileAndPost_postOk fsPath)
      · exact ihe st2 _ fsPath _ _ opts tw hst2 (splitFileAndPost_postOk fsPath)
      · split
        · exact ⟨trivial, hst3⟩
        · exact iht st3 fsPath [] opts ti tw opts.tryPfx opts.skipPackageJson hst3
            (Or.inl rfl)
      · exact iht st4 _ _ opts ti tw opts.tryPfx opts.skipPackageJson hst4
          (splitFileAndPost_postOk fsPath)
    · -- T5 extLoop
      intro st exts fsPath file post opts tw hst hpost
      simp only [extLoop]
      split
      · exact ⟨trivial, hst⟩
      · rename_i ext rest
        refine GRes_orElseX ?_ fun st1 hst1 => GRes_orElseX ?_ fun st2 hst2 => ?_
        · split
          · exact ⟨trivial, hst⟩
          · exact iht st (fsPath ++ ext) [] opts false tw opts.tryPfx
              opts.skipPackageJson hst (Or.inl rfl)
        · exact iht st1 (file ++ ext) post opts false tw opts.tryPfx
            opts.skipPackageJson hst1 hpost
        · exact ihe st2 rest fsPath file post opts tw hst2 hpost
    · -- T6 resolvePackageEntry
      intro st id dir data tw opts hst
      simp only [resolvePackageEntry]
      split
      · rename_i c heq
        split
        · exact ihpb st id dir data tw opts hst
        · exact ⟨StOK_getCache hst heq, hst⟩
      · exact ihpb st id dir data tw opts hst
    · -- T7 rpeBody
      intro st id dir data tw opts hst
      simp only [rpeBody]
      have hf := ihpi st dir data tw opts hst
      split
      · rename_i r st1 heq
        rw [heq] at hf
        exact hf
      · rename_i st1 heq
        rw [heq] at hf
        exact hf.2
      · rename_i msg st1 heq
        rw [heq] at hf
        exact hf
    · -- T8 rpeInner
      intro st dir data tw opts hst
      simp only [rpeInner]
      have hb := ihbr st (if jTruthy (alookup data "exports".data) then
        resolveExportsW e data ".".data opts tw else none) dir data tw opts hst
      split
      · rename_i er heq
        rw [heq] at hb
        exact hb
      · rename_i ep1 st1 heq
        rw [heq] at hb
        exact ihel st1 _ dir data tw opts hb
    · -- T9 rpeBrowser
      intro st ep0 dir data tw opts hst
      simp only [rpeBrowser]
      split
      · split
        · split
          · split
            · rename_i er heq
              exact GRes_transport (ihf st _ opts true true hst) heq
            · rename_i rbe st1 heq
              have hf := GRes_transport (ihf st _ opts true true hst) heq
              split
              · split
                · exact hf.2
                · exact hf.2
              · exact hf.2
            · rename_i st1 heq
              exact (GRes_transport (ihf st _ opts true true hst) heq).2
          · exact hst
        · exact hst
      · exact hst
    · -- T10 entryLoop
      intro st entries dir data tw opts hst
      simp only [entryLoop]
      split
      · exact ⟨trivial, hst⟩
      · rename_i entry rest
        split
        · rename_i er heq
          exact GRes_transport (ihf st _ _ true true hst) heq
        · rename_i r st1 heq
          have hf := GRes_transport (ihf st _ _ true true hst) heq
          exact ⟨hf.1, StOK_setCache hf.2 dir ".".data tw hf.1⟩
        · rename_i st1 heq
          have hf := GRes_transport (ihf st _ _ true true hst) heq
          exact ihel st1 rest dir data tw _ hf.2
    · -- T11 resolveDeepImport
      intro st id dir data tw opts hst
      simp only [resolveDeepImport]
      split
      · rename_i c heq
        split
        · exact ihdb st id dir data tw opts hst
        · exact ⟨StOK_getCache hst heq, hst⟩
      · exact ihdb st id dir data tw opts hst
    · -- T12 rdiBody
      intro st id dir data tw opts hst
      simp only [rdiBody]
      repeat' split
      all_goals first
        | exact ⟨trivial, hst⟩
        | exact hst
        | exact ⟨goodId_sentinel, StOK_setCache hst dir id tw goodId_sentinel⟩
        | exact ihdf st _ id dir data tw opts true hst
        | exact ihdf st _ id dir data tw opts false hst
    · -- T13 rdiFinish
      intro st rid id dir data tw opts hx hst
      simp only [rdiFinish]
      have hf := ihf st (pathJoin dir rid) opts (¬ hx) tw hst
      split
      · rename_i er heq
        rw [heq] at hf
        exact hf
      · rename_i r st1 heq
        rw [heq] at hf
        exact ⟨hf.1, StOK_setCache hf.2 dir id tw hf.1⟩
      · rename_i st1 heq
        rw [heq] at hf
        exact hf
    · -- T14 tryNodeResolve
      intro st id importer opts tw ssr ext hst
      simp only [tryNodeResolve]
      split
      · exact ⟨trivial, hst⟩
      · rename_i pkgId dir data hfp
        split
        · rename_i msg stE heq
          have hE : StOK stE := by
            split at heq
            · exact GRes_transport (ihd st _ dir data tw opts hst) heq
            · split at heq
              · exact Except.noConfusion heq
              · rename_i er heq2
                have hp := GResS_transport (ihp st _ dir data tw opts hst) heq2
                have h3 : er = (msg, stE) := Except.error.inj heq
                rw [h3] at hp
                exact hp
          split
          · exact ihr stE id importer opts tw ssr ext pkgId _ _ _ dir data hE
          · exact hE
        · rename_i r1 st1 heq
          have hA : GResO r1 ∧ StOK st1 := by
            split at heq
            · exact GRes_transport (ihd st _ dir data tw opts hst) heq
            · split at heq
              · rename_i rr st2 heq2
                have hp := GResS_transport (ihp st _ dir data tw opts hst) heq2
                have h4 : some rr = r1 := congrArg Prod.fst (Except.ok.inj heq)
                have h5 : st2 = st1 := congrArg Prod.snd (Except.ok.inj heq)
                rw [← h4, ← h5]
                exact ⟨hp.1, hp.2⟩
              · rename_i er heq2
                exact Except.noConfusion heq
          split
          · rename_i ht
            exact tnrFinish_good he hA.2 id importer opts tw ssr ext pkgId _ _ dir data
              (GResO_getD hA.1 ht)
          · split
            · exact ihr st1 id importer opts tw ssr ext pkgId _ _ _ dir data hA.2
            · exact ⟨trivial, hA.2⟩
    · -- T15 tnrRetry
      intro st id importer opts tw ssr ext pkgId nestedPath isDeep unresolvedId dir
        data hst
      simp only [tnrRetry]
      split
      · rename_i er heq
        have hE : StOK er.2 := by
          split at heq
          · exact GRes_transport (ihd st unresolvedId dir data tw _ hst) heq
          · split at heq
            · exact Except.noConfusion heq
            · rename_i er2 heq2
              have hp := GResS_transport (ihp st unresolvedId dir data tw _ hst) heq2
              have h3 : er2 = er := Except.error.inj heq
              rw [h3] at hp
              exact hp
        exact hE
      · rename_i r2 st2 heq
        have hA : GResO r2 ∧ StOK st2 := by
          split at heq
          · exact GRes_transport (ihd st unresolvedId dir data tw _ hst) heq
          · split at heq
            · rename_i rr st3 heq2
              have hp := GResS_transport (ihp st unresolvedId dir data tw _ hst) heq2
              have h4 : some rr = r2 := congrArg Prod.fst (Except.ok.inj heq)
              have h5 : st3 = st2 := congrArg Prod.snd (Except.ok.inj heq)
              rw [← h4, ← h5]
              exact ⟨hp.1, hp.2⟩
            · exact Except.noConfusion heq
        split
        · rename_i ht
          exact tnrFinish_good he hA.2 id importer opts tw ssr ext pkgId nestedPath
            isDeep dir data (GResO_getD hA.1 ht)
        · exact ⟨trivial, hA.2⟩

/-- The browser-field mapping step preserves state goodness and only emits
good records. -/
theorem trbm_good (e : Env) (he : EnvOK e) :
    ∀ (n : Nat) (st : St) (id : Str) (importer : Option Str) (opts : Opts)
      (ifp : Bool) (ext : Option Bool), StOK st →
      GResRR (tryResolveBrowserMapping e n st id importer opts ifp ext) := by
  intro n st id importer opts ifp ext hst
  cases n with
  | zero => exact hst
  | succ n =>
    simp only [tryResolveBrowserMapping]
    split
    · rename_i dir data heq
      split
      · rename_i m heq2
        split
        · rename_i s heq3
          split
          · exact ⟨trivial, hst⟩
          · split
            · rename_i er heq4
              exact GRes_transport ((m2_master e he n).2.2.2.1 st _ opts true true hst)
                heq4
            · rename_i res st1 heq4
              have hf := GRes_transport ((m2_master e he n).2.2.2.1 st _ opts true true
                hst) heq4
              refine ⟨?_, hf.2⟩
              split
              · exact Or.inl rfl
              · exact Or.inr hf.1
            · rename_i st1 heq4
              exact ⟨trivial, (GRes_transport ((m2_master e he n).2.2.2.1 st _ opts
                true true hst) heq4).2⟩
        all_goals exact ⟨trivial, hst⟩
      all_goals exact ⟨trivial, hst⟩
    · exact ⟨trivial, hst⟩

/-- The relative branch of the orchestrator preserves state goodness and only
emits good records. -/
theorem rel_good (e : Env) (he : EnvOK e) (n : Nat) :
    ∀ (st : St) (id : Str) (importer : Option Str) (ssr0 tw : Bool) (opts : Opts),
      StOK st → GResRR (resolveIdRelative e n st id importer ssr0 tw opts) := by
  intro st id importer ssr0 tw opts hst
  simp only [resolveIdRelative]
  split
  · repeat' split
    all_goals exact ⟨trivial, hst⟩
  · refine GResRR_orElseX ?_ fun st1 hst1 => GResRR_orElseX ?_ fun st2 hst2 => ?_
    · split
      · split
        · rename_i er heq
          exact GResR_transport
            ((m2_master e he n).2.2.2.2.2.2.2.2.2.2.2.2.2.1 st _ importer opts tw
              ssr0 none hst) heq
        · rename_i rec0 st' heq
          have hr := GResR_transport
            ((m2_master e he n).2.2.2.2.2.2.2.2.2.2.2.2.2.1 st _ importer opts tw
              ssr0 none hst) heq
          split
          · exact ⟨hr.1, hr.2⟩
          · exact ⟨trivial, hr.2⟩
        · rename_i st' heq
          exact ⟨trivial, (GResR_transport
            ((m2_master e he n).2.2.2.2.2.2.2.2.2.2.2.2.2.1 st _ importer opts tw
              ssr0 none hst) heq).2⟩
      · exact ⟨trivial, hst⟩
    · split
      · exact trbm_good e he n st1 _ importer opts true none hst1
      · exact ⟨trivial, hst1⟩
    · split
      · rename_i er heq
        exact GRes_transport ((m2_master e he n).2.2.2.1 st2 _ opts true true hst2) heq
      · rename_i res st3 heq
        have hf := GRes_transport ((m2_master e he n).2.2.2.1 st2 _ opts true true
          hst2) heq
        split
        · exact ⟨trivial, hf.2⟩
        · split
          · rename_i dir data heq2
            exact ⟨Or.inr hf.1, hf.2⟩
          · exact ⟨trivial, hf.2⟩
      · rename_i st3 heq
        exact ⟨trivial, (GRes_transport ((m2_master e he n).2.2.2.1 st2 _ opts true
          true hst2) heq).2⟩

/-- The bare-import branch of the orchestrator preserves state goodness and
only emits good records. -/
theorem bare_good (e : Env) (he : EnvOK e) (n : Nat) :
    ∀ (st : St) (id : Str) (importer : Option Str) (ssr0 tw : Bool) (opts : Opts),
      StOK st → GResRR (resolveIdBare e n st id importer ssr0 tw opts) := by
  intro st id importer ssr0 tw opts hst
  simp only [resolveIdBare]
  refine GResRR_orElseX ?_ fun st1 hst1 => GResRR_orElseX ?_ fun st2 hst2 =>
    GResRR_orElseX ?_ fun st3 hst3 => ?_
  · repeat' split
    all_goals exact ⟨trivial, hst⟩
  · split
    · exact trbm_good e he n st1 _ importer opts false _ hst1
    · exact ⟨trivial, hst1⟩
  · split
    · rename_i er heq
      exact GResR_transport
        ((m2_master e he n).2.2.2.2.2.2.2.2.2.2.2.2.2.1 st2 _ importer opts tw ssr0 _
          hst2) heq
    · rename_i rec0 st' heq
      have hr := GResR_transport
        ((m2_master e he n).2.2.2.2.2.2.2.2.2.2.2.2.2.1 st2 _ importer opts tw ssr0 _
          hst2) heq
      exact ⟨hr.1, hr.2⟩
    · rename_i st' heq
      exact ⟨trivial, (GResR_transport
        ((m2_master e he n).2.2.2.2.2.2.2.2.2.2.2.2.2.1 st2 _ importer opts tw ssr0 _
          hst2) heq).2⟩
  · repeat' split
    all_goals first
      | exact hst3
      | exact ⟨Or.inl rfl, hst3⟩
      | exact ⟨trivial, hst3⟩

/-- The orchestrator preserves state goodness and only emits good records. -/
theorem resolveId_good (e : Env) (he : EnvOK e) :
    ∀ (n : Nat) (st : St) (id : Str) (importer : Option Str) (ssr0 : Bool)
      (scanOpt : Option Bool) (cir : Bool) (base : Opts), StOK st →
      GResRR (resolveId e n st id importer ssr0 scanOpt cir base) := by
  intro n st id importer ssr0 scanOpt cir base hst
  cases n with
  | zero => exact hst
  | succ n =>
    simp only [resolveId]
    split
    · exact ⟨trivial, hst⟩
    · split
      · exact ⟨trivial, hst⟩
      · split
        · exact ⟨trivial, hst⟩
        · split
          · split
            · rename_i er heq
              exact GRes_transport ((m2_master e he n).2.2.2.1 st _ _ true true hst)
                heq
            · rename_i r st' heq
              exact ⟨trivial, (GRes_transport ((m2_master e he n).2.2.2.1 st _ _ true
                true hst) heq).2⟩
          · refine GResRR_orElseX ?_ fun st1 hst1 => GResRR_orElseX ?_ fun st2 hst2 =>
              GResRR_orElseX ?_ fun st3 hst3 => GResRR_orElseX ?_ fun st4 hst4 => ?_
            · split
              · split
                · rename_i er heq
                  exact GRes_transport ((m2_master e he n).2.2.2.1 st _ _ true true
                    hst) heq
                · rename_i res st' heq
                  have hf := GRes_transport ((m2_master e he n).2.2.2.1 st _ _ true
                    true hst) heq
                  split
                  · exact ⟨trivial, hf.2⟩
                  · exact ⟨trivial, hf.2⟩
                · rename_i st' heq
                  exact ⟨trivial, (GRes_transport ((m2_master e he n).2.2.2.1 st _ _
                    true true hst) heq).2⟩
              · exact ⟨trivial, hst⟩
            · split
              · exact rel_good e he n st1 id importer ssr0 _ _ hst1
              · exact ⟨trivial, hst1⟩
            · split
              · split
                · rename_i er heq
                  exact GRes_transport ((m2_master e he n).2.2.2.1 st2 _ _ true true
                    hst2) heq
                · rename_i res st' heq
                  have hf := GRes_transport ((m2_master e he n).2.2.2.1 st2 _ _ true
                    true hst2) heq
                  split
                  · exact ⟨trivial, hf.2⟩
                  · exact ⟨trivial, hf.2⟩
                · rename_i st' heq
                  exact ⟨trivial, (GRes_transport ((m2_master e he n).2.2.2.1 st2 _ _
                    true true hst2) heq).2⟩
              · exact ⟨trivial, hst2⟩
            · repeat' split
              all_goals first
                | exact ⟨Or.inl rfl, hst3⟩
                | exact ⟨trivial, hst3⟩
            · split
              · exact bare_good e he n st4 id importer ssr0 _ _ hst4
              · exact ⟨trivial, hst4⟩

/-- A good id starts with `/` (absolute) or `_` (the sentinel). -/
theorem goodId_head {s : Str} (h : GoodId s) :
    s.head? = some '/' ∨ s.head? = some '_' := by
  rcases h with h | ⟨f, p, rfl, h1, h2, h3, h4⟩
  · rw [startsWith, List.isPrefixOf_iff_prefix] at h
    obtain ⟨t, ht⟩ := h
    rw [← ht]
    exact Or.inr rfl
  · cases f with
    | nil => exact absurd h1 (by simp [isAbsB])
    | cons c t =>
      left
      have hc : c = '/' := by simpa [isAbsB] using h1
      subst hc
      rfl

theorem alookup_single_good (p c : Str) (h1 : isAbsB p = true) (h2 : cleanB p = true) :
    ∀ f v, alookup [(p, c)] f = some v → isAbsB f = true ∧ cleanB f = true := by
  intro f v h
  simp only [alookup] at h
  split at h
  · rename_i heq
    exact heq ▸ ⟨h1, h2⟩
  · exact Option.noConfusion h

/-- C1: for every specifier, importer and options, when the orchestrator
`resolveId` returns a structured record that does not carry `external: true` —
over any well-formed filesystem (absolute, `?`/`#`-free paths, well-behaved
`realpathSync` and optimizer, a good memo state) — the record's `id` is a good
id: the browser-external sentinel, or an absolute, `posixNormalize`-fixed,
clean path followed by an optional `?`/`#` postfix; in particular it never
starts with `.`, so it is never a relative path. -/
theorem c1_structured_ids_absolute (e : Env) (n : Nat) (st : St) (id : Str)
    (importer : Option Str) (ssr0 : Bool) (scanOpt : Option Bool) (cir : Bool)
    (base : Opts) (rec : RRecord) (st' : St)
    (he : EnvOK e) (hst : StOK st)
    (h : resolveId e n st id importer ssr0 scanOpt cir base
      = .ok (some (.rrec rec), st'))
    (hext : rec.external = false) :
    GoodId rec.id ∧ ¬ rec.id.head? = some '.' := by
  have hr := resolveId_good e he n st id importer ssr0 scanOpt cir base hst
  rw [h] at hr
  have hg : GRec rec := hr.1
  rcases hg with hx | hg
  · rw [hext] at hx
    exact absurd hx (by simp)
  · refine ⟨hg, ?_⟩
    rcases goodId_head hg with hh | hh <;> simp [hh]

/-- Environment for the C1 witness: one readable file, a constant well-behaved
`realpathSync`. -/
def c1Env : Env :=
  { files := [("/imp/a.js".data, "x".data)]
    realp := fun _ => "/r".data }

/-- Base options for the C1 witness. -/
def c1Base : Opts := { root := "/p".data, preserveSymlinks := true }

/-- Start state for the C1 witness: an empty memo cache and one `idToPkgMap`
entry for the importer, so the relative branch produces a structured record. -/
def c1St : St := ⟨[], [("/imp/x.js".data, ("/d".data, ([] : Manifest)))]⟩

/-- C1 witness: a relative import resolved against an importer registered in
`idToPkgMap` yields a structured, non-external record, and the theorem applies:
its id is a good (absolute) id and does not start with `.`. -/
theorem c1_witness :
    GoodId "/imp/a.js".data ∧ ¬ ("/imp/a.js".data.head? = some '.') :=
  c1_structured_ids_absolute c1Env 10 c1St "./a.js".data (some "/imp/x.js".data)
    false none false c1Base
    { id := "/imp/a.js".data, sideEffects := some true }
    ⟨[], [("/imp/a.js".data, ("/d".data, [])), ("/imp/x.js".data, ("/d".data, []))]⟩
    (by
      refine ⟨alookup_single_good "/imp/a.js".data "x".data (by decide) (by decide),
        ?_, ?_, ?_⟩
      · intro d hd
        simp [c1Env, memStr] at hd
      · intro f
        exact ⟨rfl, rfl⟩
      · intro opt hopt
        simp [c1Env] at hopt)
    (by
      intro k v hkv
      simp [c1St, clookup] at hkv)
    (by rfl) rfl

end ViteResolve
